import Mathlib

/-!
Verification of the 6502 emulator core (src/emulator/cpu.py, src/emulator/memory.py,
src/emulator/utils.py) against its specification.

The CPU model is a shallow embedding: Python integers become Nat (or Int where a
value can go negative), bit masks with solid masks become explicit division and
remainder (for a nonnegative integer, and-ing with 2^k - 1 is taking the value
mod 2^k, and-ing with 0xff00 keeps the quotient by 256), and the two exceptions
that can escape an instruction handler (ValueError from utils.dec_to_bcd) make
handlers return Option.  Memory is the total address-to-byte map presented by the
Memory interface: MemoryBlock stores a bytearray, so read returns one byte.
-/

namespace Emu6502

/-- Bit i of a natural number, as 0 or 1: Python reads flags as
either a shift-and-mask or a test against a single-bit mask. -/
def getBit (n i : Nat) : Nat := n / 2 ^ i % 2

/-- Clear bit i of n: the Python idiom of and-ing with the complement of a
single-bit mask, written for nonnegative integers as keeping the low i bits
and everything above bit i. -/
def clearBit (n i : Nat) : Nat := n % 2 ^ i + n / 2 ^ (i + 1) * 2 ^ (i + 1)

/-- Store v (0 or 1) into bit i of n: the repeated Python two-line pattern that
first clears bit i and then ors in v shifted to position i (after the clear,
the or is an addition). -/
def setFlag (n i v : Nat) : Nat := clearBit n i + v * 2 ^ i

/-- Force bit i of n to 1: the Python idiom of or-ing with a single-bit mask. -/
def setBit (n i : Nat) : Nat := setFlag n i 1

/-- Memory as a total address-to-value map, as dispatched by MemoryMap. -/
def Mem : Type := Nat → Nat

/-- Memory.read returns one byte: MemoryBlock reads from a bytearray and
MemoryMap forwards to a region (or returns 0 when no region matches). -/
def readMem (m : Mem) (a : Nat) : Nat := m a % 256

/-- Memory.write: MemoryBlock masks the written value with the low eight bits. -/
def writeMem (m : Mem) (a v : Nat) : Mem := fun x => if x = a then v % 256 else m x

/-- AddressingMode enum from cpu.py. -/
inductive AddressingMode
  | immediate
  | zeroPage
  | zeroPageX
  | zeroPageY
  | absolute
  | absoluteX
  | absoluteY
  | indirectX
  | indirectY
deriving DecidableEq, Repr

/-- StepResult enum from cpu.py. -/
inductive StepResult
  | normal
  | brk
deriving DecidableEq, Repr

/-- Architectural state of CPU6502 plus the memory it drives.  Status bit
positions: C=0, Z=1, I=2, D=3, B=4, (unused)=5, V=6, N=7. -/
structure CPU where
  a : Nat
  x : Nat
  y : Nat
  pc : Nat
  sp : Nat
  status : Nat
  cycles : Nat
  mem : Mem

/-- CPU6502.__init__: registers zero, PC zero, SP 0xff, cycle counter zero, and
the status register gets Z (bit 1), I (bit 2) and the unused bit 5 set. -/
def CPU.new (m : Mem) : CPU :=
  { a := 0, x := 0, y := 0, pc := 0, sp := 0xff,
    status := setBit (setBit (setBit 0 1) 2) 5,
    cycles := 0, mem := m }

/-- CPU6502.update_zero_flag: Z (bit 1) is set iff the result is zero. -/
def update_zero_flag (status result : Nat) : Nat :=
  setFlag status 1 (if result = 0 then 1 else 0)

/-- CPU6502.update_negative_flag: N (bit 7) is bit 7 of the result. -/
def update_negative_flag (status result : Nat) : Nat :=
  setFlag status 7 (getBit result 7)

/-- The v computed by CPU6502.update_overflow_flag: the source takes
bit 7 of the complement of (a_initial xor operand), ands it with bit 7 of
(a_initial xor result), and shifts it down; only bit 7 survives the masks, so
v is 1 exactly when bit 7 of (a_initial xor operand) is 0 and bit 7 of
(a_initial xor result) is 1. -/
def overflow_bit (a_initial operand result : Nat) : Nat :=
  (1 - getBit (a_initial ^^^ operand) 7) * getBit (a_initial ^^^ result) 7

/-- CPU6502.update_overflow_flag: store overflow_bit into V (bit 6). -/
def update_overflow_flag (status a_initial operand result : Nat) : Nat :=
  setFlag status 6 (overflow_bit a_initial operand result)

/-- CPU6502.resolve_address: returns the CPU with PC advanced past the operand
bytes, the effective address, and the page-boundary-crossed flag.  The page
comparison ands both addresses with 0xff00, i.e. compares the quotients by 256
masked to a byte. -/
def resolve_address (mode : AddressingMode) (s : CPU) : CPU × Nat × Bool :=
  match mode with
  | .immediate =>
      ({ s with pc := s.pc + 1 }, s.pc, false)
  | .zeroPage =>
      ({ s with pc := s.pc + 1 }, readMem s.mem s.pc, false)
  | .zeroPageX =>
      ({ s with pc := s.pc + 1 }, (readMem s.mem s.pc + s.x) % 256, false)
  | .zeroPageY =>
      ({ s with pc := s.pc + 1 }, (readMem s.mem s.pc + s.y) % 256, false)
  | .absolute =>
      let lo := readMem s.mem s.pc
      let hi := readMem s.mem (s.pc + 1)
      ({ s with pc := s.pc + 2 }, hi * 256 + lo, false)
  | .absoluteX =>
      let lo := readMem s.mem s.pc
      let hi := readMem s.mem (s.pc + 1)
      let base := hi * 256 + lo
      let addr := (base + s.x) % 65536
      ({ s with pc := s.pc + 2 }, addr, decide (base / 256 % 256 ≠ addr / 256 % 256))
  | .absoluteY =>
      let lo := readMem s.mem s.pc
      let hi := readMem s.mem (s.pc + 1)
      let base := hi * 256 + lo
      let addr := (base + s.y) % 65536
      ({ s with pc := s.pc + 2 }, addr, decide (base / 256 % 256 ≠ addr / 256 % 256))
  | .indirectX =>
      let zp := (readMem s.mem s.pc + s.x) % 256
      let lo := readMem s.mem zp
      let hi := readMem s.mem ((zp + 1) % 256)
      ({ s with pc := s.pc + 1 }, hi * 256 + lo, false)
  | .indirectY =>
      let zp := readMem s.mem s.pc
      let lo := readMem s.mem zp
      let hi := readMem s.mem ((zp + 1) % 256)
      let base := hi * 256 + lo
      let addr := (base + s.y) % 65536
      ({ s with pc := s.pc + 1 }, addr, decide (base / 256 % 256 ≠ addr / 256 % 256))

/-- CPU6502.push_byte_to_stack: write at 0x0100 + SP, then decrement SP
modulo 256 (Python subtracts one and ands with 0xff, which is adding 255
mod 256 on naturals). -/
def push_byte (s : CPU) (b : Nat) : CPU :=
  { s with mem := writeMem s.mem (0x0100 + s.sp) b, sp := (s.sp + 255) % 256 }

/-- CPU6502.pull_byte_from_stack: increment SP modulo 256, then read at
0x0100 + SP. -/
def pull_byte (s : CPU) : CPU × Nat :=
  let sp := (s.sp + 1) % 256
  ({ s with sp := sp }, readMem s.mem (0x0100 + sp))

/-- The three interrupt entry paths of CPU6502._interrupt. -/
inductive InterruptType
  | maskable
  | nonMaskable
  | brkInt
deriving DecidableEq

/-- CPU6502._interrupt: a maskable interrupt is dropped when I (bit 2) is set;
a break sets B (bit 4) in the live status first; then 7 cycles, push PC high,
PC low and the status byte, set I, and load PC from the selected vector
(0xfffa for NMI, 0xfffe otherwise). -/
def interrupt (t : InterruptType) (s : CPU) : CPU :=
  if t = .maskable ∧ getBit s.status 2 = 1 then s
  else
    let s := if t = .brkInt then { s with status := setBit s.status 4 } else s
    let s := { s with cycles := s.cycles + 7 }
    let pc_lo := s.pc % 256
    let pc_hi := s.pc / 256 % 256
    let s := push_byte s pc_hi
    let s := push_byte s pc_lo
    let s := push_byte s s.status
    let s := { s with status := setBit s.status 2 }
    let vector := if t = .nonMaskable then 0xfffa else 0xfffe
    let lo := readMem s.mem vector
    let hi := readMem s.mem (vector + 1)
    { s with pc := hi * 256 + lo }

/-- CPU6502.irq. -/
def irq (s : CPU) : CPU := interrupt .maskable s

/-- CPU6502.nmi. -/
def nmi (s : CPU) : CPU := interrupt .nonMaskable s

/-- LOAD_CYCLE_COUNTS table from cpu.py. -/
def LOAD_CYCLE_COUNTS : AddressingMode → Nat
  | .immediate => 2
  | .zeroPage => 3
  | .zeroPageX => 4
  | .zeroPageY => 4
  | .absolute => 4
  | .absoluteX => 4
  | .absoluteY => 4
  | .indirectX => 6
  | .indirectY => 5

/-- LOAD_EXTRA_CYCLE_MODES tuple from cpu.py. -/
def LOAD_EXTRA_CYCLE_MODES : AddressingMode → Bool
  | .absoluteX => true
  | .absoluteY => true
  | .indirectY => true
  | _ => false

/-- STORE_CYCLE_COUNTS table from cpu.py.  The source dict has no entry for
immediate mode and no store opcode is registered with it (a lookup would raise
KeyError), so that branch is unreachable from the dispatch table. -/
def STORE_CYCLE_COUNTS : AddressingMode → Nat
  | .immediate => 0
  | .zeroPage => 3
  | .zeroPageX => 4
  | .zeroPageY => 4
  | .absolute => 4
  | .absoluteX => 5
  | .absoluteY => 5
  | .indirectX => 6
  | .indirectY => 6

/-- UNARY_CYCLE_COUNTS table from cpu.py; only the four listed modes appear in
the source dict, and only those are registered for inc/dec/shift opcodes. -/
def UNARY_CYCLE_COUNTS : AddressingMode → Nat
  | .zeroPage => 5
  | .zeroPageX => 6
  | .absolute => 6
  | .absoluteX => 7
  | _ => 0

/-- BINARY_CYCLE_COUNTS table from cpu.py. -/
def BINARY_CYCLE_COUNTS : AddressingMode → Nat
  | .immediate => 2
  | .zeroPage => 3
  | .zeroPageX => 4
  | .zeroPageY => 4
  | .absolute => 4
  | .absoluteX => 4
  | .absoluteY => 4
  | .indirectX => 6
  | .indirectY => 5

/-- BINARY_EXTRA_CYCLE_MODES tuple from cpu.py (used bare by eor and ora). -/
def BINARY_EXTRA_CYCLE_MODES : AddressingMode → Bool
  | .absoluteX => true
  | .absoluteY => true
  | _ => false

/-- The extended tuple BINARY_EXTRA_CYCLE_MODES plus INDIRECT_Y, built inline
by adc, sbc, and_op and compare_logic. -/
def BINARY_EXTRA_CYCLE_MODES_INDY : AddressingMode → Bool
  | .absoluteX => true
  | .absoluteY => true
  | .indirectY => true
  | _ => false

/-- CPU6502.branch: fetch the offset, convert to a signed value, advance PC,
and when the tested flag matches jump with wrap mod 0x10000 (Python ints can
go negative here, hence Int) adding a cycle on a page crossing. -/
def branch (flag_index flag_value : Nat) (s : CPU) : CPU :=
  if getBit s.status flag_index = flag_value then
    let offset := readMem s.mem s.pc
    let s := { s with pc := s.pc + 1 }
    let off : Int := if offset ≥ 0x80 then (offset : Int) - 0x100 else (offset : Int)
    let old_pc := s.pc
    let new_pc := (((s.pc : Int) + off) % 65536).toNat
    let s := { s with pc := new_pc, cycles := s.cycles + 3 }
    if old_pc / 256 % 256 ≠ new_pc / 256 % 256 then { s with cycles := s.cycles + 1 } else s
  else
    { s with pc := s.pc + 1, cycles := s.cycles + 2 }

/-- CPU6502.brk: skip the signature byte, then take the break interrupt path. -/
def brk (s : CPU) : CPU :=
  interrupt .brkInt { s with pc := s.pc + 1 }

/-- CPU6502.jmp with mode absolute: 3 cycles. -/
def jmp_absolute (s : CPU) : CPU :=
  let addr_lo := readMem s.mem s.pc
  let addr_hi := readMem s.mem ((s.pc + 1) % 65536)
  let addr := addr_hi * 256 + addr_lo
  { s with pc := addr, cycles := s.cycles + 3 }

/-- CPU6502.jmp with mode indirect: 5 cycles; the high byte of the target is
read at the pointer's page base plus the pointer's low byte plus one wrapped
within the page — the NMOS page-wrap bug (the source ands the pointer with
0xff00 and ors in the incremented low byte; the pointer is built from two
bytes so it is below 0x10000 and the or is an addition of disjoint parts). -/
def jmp_indirect (s : CPU) : CPU :=
  let ptr_lo := readMem s.mem s.pc
  let ptr_hi := readMem s.mem ((s.pc + 1) % 65536)
  let ptr := ptr_hi * 256 + ptr_lo
  let addr_lo := readMem s.mem ptr
  let addr_incremented := ptr / 256 * 256 + (ptr + 1) % 256
  let addr_hi := readMem s.mem addr_incremented
  { s with pc := addr_hi * 256 + addr_lo, cycles := s.cycles + 5 }

/-- CPU6502.jsr: read the 16-bit target, push high then low byte of the
address of the last byte of the instruction (PC + 1 wrapped), jump; 6 cycles. -/
def jsr (s : CPU) : CPU :=
  let sr_lo := readMem s.mem s.pc
  let sr_hi := readMem s.mem ((s.pc + 1) % 65536)
  let sr_addr := sr_hi * 256 + sr_lo
  let return_addr := (s.pc + 1) % 65536
  let s := push_byte s (return_addr / 256 % 256)
  let s := push_byte s (return_addr % 256)
  { s with pc := sr_addr, cycles := s.cycles + 6 }

/-- CPU6502.nop: 2 cycles. -/
def nop (s : CPU) : CPU :=
  { s with cycles := s.cycles + 2 }

/-- CPU6502.rts: pull low then high byte and set PC to that word plus one
(the source does not wrap this addition); 6 cycles. -/
def rts (s : CPU) : CPU :=
  let p1 := pull_byte s
  let p2 := pull_byte p1.1
  { p2.1 with pc := p2.2 * 256 + p1.2 + 1, cycles := s.cycles + 6 }

/-- CPU6502.clc. -/
def clc (s : CPU) : CPU := { s with status := clearBit s.status 0, cycles := s.cycles + 2 }

/-- CPU6502.sec. -/
def sec (s : CPU) : CPU := { s with status := setBit s.status 0, cycles := s.cycles + 2 }

/-- CPU6502.cli. -/
def cli (s : CPU) : CPU := { s with status := clearBit s.status 2, cycles := s.cycles + 2 }

/-- CPU6502.sei. -/
def sei (s : CPU) : CPU := { s with status := setBit s.status 2, cycles := s.cycles + 2 }

/-- CPU6502.cld. -/
def cld (s : CPU) : CPU := { s with status := clearBit s.status 3, cycles := s.cycles + 2 }

/-- CPU6502.sed. -/
def sed (s : CPU) : CPU := { s with status := setBit s.status 3, cycles := s.cycles + 2 }

/-- CPU6502.clv. -/
def clv (s : CPU) : CPU := { s with status := clearBit s.status 6, cycles := s.cycles + 2 }

/-- CPU6502.lda. -/
def lda (mode : AddressingMode) (s0 : CPU) : CPU :=
  let r := resolve_address mode s0
  let s := { r.1 with a := readMem r.1.mem r.2.1 }
  let s := { s with cycles := s.cycles + LOAD_CYCLE_COUNTS mode }
  let s := if r.2.2 && LOAD_EXTRA_CYCLE_MODES mode then { s with cycles := s.cycles + 1 } else s
  { s with status := update_negative_flag (update_zero_flag s.status s.a) s.a }

/-- CPU6502.ldx. -/
def ldx (mode : AddressingMode) (s0 : CPU) : CPU :=
  let r := resolve_address mode s0
  let s := { r.1 with x := readMem r.1.mem r.2.1 }
  let s := { s with cycles := s.cycles + LOAD_CYCLE_COUNTS mode }
  let s := if r.2.2 && LOAD_EXTRA_CYCLE_MODES mode then { s with cycles := s.cycles + 1 } else s
  { s with status := update_negative_flag (update_zero_flag s.status s.x) s.x }

/-- CPU6502.ldy. -/
def ldy (mode : AddressingMode) (s0 : CPU) : CPU :=
  let r := resolve_address mode s0
  let s := { r.1 with y := readMem r.1.mem r.2.1 }
  let s := { s with cycles := s.cycles + LOAD_CYCLE_COUNTS mode }
  let s := if r.2.2 && LOAD_EXTRA_CYCLE_MODES mode then { s with cycles := s.cycles + 1 } else s
  { s with status := update_negative_flag (update_zero_flag s.status s.y) s.y }

/-- CPU6502.sta. -/
def sta (mode : AddressingMode) (s0 : CPU) : CPU :=
  let r := resolve_address mode s0
  let s := { r.1 with mem := writeMem r.1.mem r.2.1 r.1.a }
  { s with cycles := s.cycles + STORE_CYCLE_COUNTS mode }

/-- CPU6502.stx. -/
def stx (mode : AddressingMode) (s0 : CPU) : CPU :=
  let r := resolve_address mode s0
  let s := { r.1 with mem := writeMem r.1.mem r.2.1 r.1.x }
  { s with cycles := s.cycles + STORE_CYCLE_COUNTS mode }

/-- CPU6502.sty. -/
def sty (mode : AddressingMode) (s0 : CPU) : CPU :=
  let r := resolve_address mode s0
  let s := { r.1 with mem := writeMem r.1.mem r.2.1 r.1.y }
  { s with cycles := s.cycles + STORE_CYCLE_COUNTS mode }

/-- CPU6502.tax. -/
def tax (s : CPU) : CPU :=
  let s := { s with x := s.a, cycles := s.cycles + 2 }
  { s with status := update_negative_flag (update_zero_flag s.status s.x) s.x }

/-- CPU6502.tay. -/
def tay (s : CPU) : CPU :=
  let s := { s with y := s.a, cycles := s.cycles + 2 }
  { s with status := update_negative_flag (update_zero_flag s.status s.y) s.y }

/-- CPU6502.tsx. -/
def tsx (s : CPU) : CPU :=
  let s := { s with x := s.sp, cycles := s.cycles + 2 }
  { s with status := update_negative_flag (update_zero_flag s.status s.x) s.x }

/-- CPU6502.txa. -/
def txa (s : CPU) : CPU :=
  let s := { s with a := s.x, cycles := s.cycles + 2 }
  { s with status := update_negative_flag (update_zero_flag s.status s.a) s.a }

/-- CPU6502.txs: no flag updates. -/
def txs (s : CPU) : CPU :=
  { s with sp := s.x, cycles := s.cycles + 2 }

/-- CPU6502.tya. -/
def tya (s : CPU) : CPU :=
  let s := { s with a := s.y, cycles := s.cycles + 2 }
  { s with status := update_negative_flag (update_zero_flag s.status s.a) s.a }

/-- CPU6502.pha. -/
def pha (s : CPU) : CPU :=
  let s := push_byte s s.a
  { s with cycles := s.cycles + 3 }

/-- CPU6502.php: the pushed byte has B (bit 4) forced to 1; the live status is
not changed. -/
def php (s : CPU) : CPU :=
  let s := push_byte s (setBit s.status 4)
  { s with cycles := s.cycles + 3 }

/-- CPU6502.pla. -/
def pla (s : CPU) : CPU :=
  let p := pull_byte s
  let s := { p.1 with a := p.2 }
  { s with status := update_zero_flag (update_negative_flag s.status s.a) s.a,
           cycles := s.cycles + 4 }

/-- CPU6502.plp: the pulled byte has B (bit 4) forced to 0 before it becomes
the status register. -/
def plp (s : CPU) : CPU :=
  let p := pull_byte s
  { p.1 with status := clearBit p.2 4, cycles := s.cycles + 4 }

/-- CPU6502.dec: decrement the byte mod 256 (Python subtracts one and ands
with 0xff: adding 255 mod 256 on naturals). -/
def dec (mode : AddressingMode) (s0 : CPU) : CPU :=
  let r := resolve_address mode s0
  let byte := (readMem r.1.mem r.2.1 + 255) % 256
  let s := { r.1 with mem := writeMem r.1.mem r.2.1 byte }
  let s := { s with cycles := s.cycles + UNARY_CYCLE_COUNTS mode }
  { s with status := update_negative_flag (update_zero_flag s.status byte) byte }

/-- CPU6502.dex. -/
def dex (s : CPU) : CPU :=
  let s := { s with x := (s.x + 255) % 256, cycles := s.cycles + 2 }
  { s with status := update_negative_flag (update_zero_flag s.status s.x) s.x }

/-- CPU6502.dey. -/
def dey (s : CPU) : CPU :=
  let s := { s with y := (s.y + 255) % 256, cycles := s.cycles + 2 }
  { s with status := update_negative_flag (update_zero_flag s.status s.y) s.y }

/-- CPU6502.inc. -/
def inc (mode : AddressingMode) (s0 : CPU) : CPU :=
  let r := resolve_address mode s0
  let byte := (readMem r.1.mem r.2.1 + 1) % 256
  let s := { r.1 with mem := writeMem r.1.mem r.2.1 byte }
  let s := { s with cycles := s.cycles + UNARY_CYCLE_COUNTS mode }
  { s with status := update_negative_flag (update_zero_flag s.status byte) byte }

/-- CPU6502.inx. -/
def inx (s : CPU) : CPU :=
  let s := { s with x := (s.x + 1) % 256, cycles := s.cycles + 2 }
  { s with status := update_negative_flag (update_zero_flag s.status s.x) s.x }

/-- CPU6502.iny. -/
def iny (s : CPU) : CPU :=
  let s := { s with y := (s.y + 1) % 256, cycles := s.cycles + 2 }
  { s with status := update_negative_flag (update_zero_flag s.status s.y) s.y }

/-- CPU6502.asl: a None mode means the accumulator form (2 cycles); carry gets
bit 7 of the input and the result is the input doubled mod 256. -/
def asl (mode : Option AddressingMode) (s0 : CPU) : CPU :=
  match mode with
  | some m =>
      let r := resolve_address m s0
      let value := readMem r.1.mem r.2.1
      let carry := getBit value 7
      let value := value * 2 % 256
      let s := { r.1 with mem := writeMem r.1.mem r.2.1 value }
      let s := { s with status := setFlag s.status 0 carry }
      let s := { s with cycles := s.cycles + UNARY_CYCLE_COUNTS m }
      { s with status := update_negative_flag (update_zero_flag s.status value) value }
  | none =>
      let value := s0.a
      let carry := getBit value 7
      let value := value * 2 % 256
      let s := { s0 with a := value }
      let s := { s with status := setFlag s.status 0 carry }
      let s := { s with cycles := s.cycles + 2 }
      { s with status := update_negative_flag (update_zero_flag s.status value) value }

/-- CPU6502.lsr: carry gets bit 0 of the input and the result is the input
halved. -/
def lsr (mode : Option AddressingMode) (s0 : CPU) : CPU :=
  match mode with
  | some m =>
      let r := resolve_address m s0
      let value := readMem r.1.mem r.2.1
      let carry := value % 2
      let value := value / 2
      let s := { r.1 with mem := writeMem r.1.mem r.2.1 value }
      let s := { s with status := setFlag s.status 0 carry }
      let s := { s with cycles := s.cycles + UNARY_CYCLE_COUNTS m }
      { s with status := update_negative_flag (update_zero_flag s.status value) value }
  | none =>
      let value := s0.a
      let carry := value % 2
      let value := value / 2
      let s := { s0 with a := value }
      let s := { s with status := setFlag s.status 0 carry }
      let s := { s with cycles := s.cycles + 2 }
      { s with status := update_negative_flag (update_zero_flag s.status value) value }

/-- CPU6502.rol: the old carry enters at bit 0 (the doubled value is even, so
the or is an addition); carry gets bit 7 of the input. -/
def rol (mode : Option AddressingMode) (s0 : CPU) : CPU :=
  let buffer := getBit s0.status 0
  match mode with
  | some m =>
      let r := resolve_address m s0
      let value := readMem r.1.mem r.2.1
      let carry := getBit value 7
      let value := (value * 2 + buffer) % 256
      let s := { r.1 with mem := writeMem r.1.mem r.2.1 value }
      let s := { s with status := setFlag s.status 0 carry }
      let s := { s with cycles := s.cycles + UNARY_CYCLE_COUNTS m }
      { s with status := update_negative_flag (update_zero_flag s.status value) value }
  | none =>
      let value := s0.a
      let carry := getBit value 7
      let value := (value * 2 + buffer) % 256
      let s := { s0 with a := value }
      let s := { s with status := setFlag s.status 0 carry }
      let s := { s with cycles := s.cycles + 2 }
      { s with status := update_negative_flag (update_zero_flag s.status value) value }

/-- CPU6502.ror: the old carry enters at bit 8 before the halving (the input
is one byte, so the or of the shifted carry with it is an addition); carry
gets bit 0 of the input. -/
def ror (mode : Option AddressingMode) (s0 : CPU) : CPU :=
  let buffer := getBit s0.status 0
  match mode with
  | some m =>
      let r := resolve_address m s0
      let value := readMem r.1.mem r.2.1
      let carry := value % 2
      let value := (buffer * 256 + value) / 2
      let s := { r.1 with mem := writeMem r.1.mem r.2.1 value }
      let s := { s with status := setFlag s.status 0 carry }
      let s := { s with cycles := s.cycles + UNARY_CYCLE_COUNTS m }
      { s with status := update_negative_flag (update_zero_flag s.status value) value }
  | none =>
      let value := s0.a
      let carry := value % 2
      let value := (buffer * 256 + value) / 2
      let s := { s0 with a := value }
      let s := { s with status := setFlag s.status 0 carry }
      let s := { s with cycles := s.cycles + 2 }
      { s with status := update_negative_flag (update_zero_flag s.status value) value }

/-- utils.dec_to_bcd: raises ValueError outside the range 0 to 99 (modelled
as none); otherwise the tens digit becomes the high nibble (the shifted tens
ored with the ones below 10 is an addition of disjoint parts). -/
def dec_to_bcd (d : Int) : Option Nat :=
  if d < 0 ∨ d > 99 then none
  else some (d.toNat / 10 * 16 + d.toNat % 10)

/-- CPU6502.adc: the binary intermediate sum is always computed; with D (bit 3)
clear the accumulator gets the binary result, otherwise both operands are read
as packed BCD, the decimal sum is reduced by 100 on carry and re-encoded by
dec_to_bcd (whose ValueError escapes as none).  C gets the carry, while Z, N
and V are always set from the binary intermediate. -/
def adc (mode : AddressingMode) (s0 : CPU) : Option CPU :=
  let r := resolve_address mode s0
  let s := r.1
  let operand := readMem s.mem r.2.1
  let a_initial := s.a
  let carry_in := getBit s.status 0
  let binary_sum := s.a + operand + carry_in
  let binary_carry := binary_sum / 256
  let binary_result := binary_sum % 256
  let dres : Option (Nat × Nat) :=
    if getBit s.status 3 = 0 then some (binary_result, binary_carry)
    else
      let a_dec := a_initial % 16 + a_initial / 16 * 10
      let operand_dec := operand % 16 + operand / 16 * 10
      let isum := a_dec + operand_dec + carry_in
      let carry_out := if isum ≥ 100 then 1 else 0
      let isum := if carry_out = 1 then isum - 100 else isum
      (dec_to_bcd (isum : Int)).map fun b => (b, carry_out)
  dres.map fun p =>
    let s := { s with a := p.1 }
    let s := { s with status := setFlag s.status 0 p.2 }
    let s := { s with status := update_zero_flag s.status binary_result }
    let s := { s with status := update_negative_flag s.status binary_result }
    let s := { s with status := update_overflow_flag s.status a_initial operand binary_result }
    let s := { s with cycles := s.cycles + BINARY_CYCLE_COUNTS mode }
    if r.2.2 && BINARY_EXTRA_CYCLE_MODES_INDY mode then { s with cycles := s.cycles + 1 } else s

/-- CPU6502.sbc: subtraction is addition of the complemented operand (for one
byte, the complement anded with 0xff is 255 minus the operand); the decimal
path computes the signed decimal difference (Int, since it can go negative),
carries out on a nonnegative difference and adds 100 otherwise. -/
def sbc (mode : AddressingMode) (s0 : CPU) : Option CPU :=
  let r := resolve_address mode s0
  let s := r.1
  let operand := readMem s.mem r.2.1
  let a_initial := s.a
  let carry_in := getBit s.status 0
  let binary_diff := s.a + (255 - operand) + carry_in
  let binary_carry := binary_diff / 256
  let binary_result := binary_diff % 256
  let dres : Option (Nat × Nat) :=
    if getBit s.status 3 = 0 then some (binary_result, binary_carry)
    else
      let a_dec := a_initial % 16 + a_initial / 16 * 10
      let operand_dec := operand % 16 + operand / 16 * 10
      let isum : Int := (a_dec : Int) - (operand_dec : Int) + (carry_in : Int) - 1
      let carry_out := if isum ≥ 0 then 1 else 0
      let isum := if carry_out = 1 then isum else isum + 100
      (dec_to_bcd isum).map fun b => (b, carry_out)
  dres.map fun p =>
    let s := { s with a := p.1 }
    let s := { s with status := setFlag s.status 0 p.2 }
    let s := { s with status := update_zero_flag s.status binary_result }
    let s := { s with status := update_negative_flag s.status binary_result }
    let s := { s with status := update_overflow_flag s.status a_initial (255 - operand) binary_result }
    let s := { s with cycles := s.cycles + BINARY_CYCLE_COUNTS mode }
    if r.2.2 && BINARY_EXTRA_CYCLE_MODES_INDY mode then { s with cycles := s.cycles + 1 } else s

/-- CPU6502.and_op. -/
def and_op (mode : AddressingMode) (s0 : CPU) : CPU :=
  let r := resolve_address mode s0
  let s := r.1
  let operand := readMem s.mem r.2.1
  let s := { s with a := s.a &&& operand }
  let s := { s with status := update_negative_flag (update_zero_flag s.status s.a) s.a }
  let s := { s with cycles := s.cycles + BINARY_CYCLE_COUNTS mode }
  if r.2.2 && BINARY_EXTRA_CYCLE_MODES_INDY mode then { s with cycles := s.cycles + 1 } else s

/-- CPU6502.eor: note the extra-cycle check uses the bare tuple, without
INDIRECT_Y. -/
def eor (mode : AddressingMode) (s0 : CPU) : CPU :=
  let r := resolve_address mode s0
  let s := r.1
  let operand := readMem s.mem r.2.1
  let s := { s with a := s.a ^^^ operand }
  let s := { s with status := update_negative_flag (update_zero_flag s.status s.a) s.a }
  let s := { s with cycles := s.cycles + BINARY_CYCLE_COUNTS mode }
  if r.2.2 && BINARY_EXTRA_CYCLE_MODES mode then { s with cycles := s.cycles + 1 } else s

/-- CPU6502.ora: note the extra-cycle check uses the bare tuple, without
INDIRECT_Y. -/
def ora (mode : AddressingMode) (s0 : CPU) : CPU :=
  let r := resolve_address mode s0
  let s := r.1
  let operand := readMem s.mem r.2.1
  let s := { s with a := s.a ||| operand }
  let s := { s with status := update_negative_flag (update_zero_flag s.status s.a) s.a }
  let s := { s with cycles := s.cycles + BINARY_CYCLE_COUNTS mode }
  if r.2.2 && BINARY_EXTRA_CYCLE_MODES mode then { s with cycles := s.cycles + 1 } else s

/-- CPU6502.bit: N gets bit 7 of the operand, V bit 6, Z tests the mask of
operand with the accumulator; the source clears N, V and Z and then ors the
three disjoint bits in, which is an addition after the clears. -/
def bit (mode : AddressingMode) (s0 : CPU) : CPU :=
  let r := resolve_address mode s0
  let s := r.1
  let operand := readMem s.mem r.2.1
  let b7 := getBit operand 7
  let b6 := getBit operand 6
  let z := if operand &&& s.a = 0 then 1 else 0
  let st := clearBit (clearBit (clearBit s.status 7) 6) 1
  let st := st + b7 * 2 ^ 7 + b6 * 2 ^ 6 + z * 2
  { s with status := st, cycles := s.cycles + BINARY_CYCLE_COUNTS mode }

/-- Register selector for the shared comparison handler. -/
inductive Reg
  | a
  | x
  | y
deriving DecidableEq, Repr

/-- CPU6502.compare_logic: binary subtraction with forced carry in, setting C,
Z and N only. -/
def compare_logic (register_value : Nat) (mode : AddressingMode) (s0 : CPU) : CPU :=
  let r := resolve_address mode s0
  let s := r.1
  let operand := readMem s.mem r.2.1
  let diff := register_value + (255 - operand) + 1
  let carry_out := diff / 256 % 2
  let binary_result := diff % 256
  let s := { s with status := setFlag s.status 0 carry_out }
  let s := { s with status := update_negative_flag (update_zero_flag s.status binary_result) binary_result }
  let s := { s with cycles := s.cycles + BINARY_CYCLE_COUNTS mode }
  if r.2.2 && BINARY_EXTRA_CYCLE_MODES_INDY mode then { s with cycles := s.cycles + 1 } else s

/-- CPU6502.compare: dispatch on the register. -/
def compare (reg : Reg) (mode : AddressingMode) (s : CPU) : CPU :=
  compare_logic (match reg with | .a => s.a | .x => s.x | .y => s.y) mode s

/-- One entry of the opcode dispatch table: the handler method together with
the keyword arguments registered by the opcode decorator. -/
inductive Instr
  | branch (flag_index flag_value : Nat)
  | brk
  | jmpAbs
  | jmpInd
  | jsr
  | nop
  | rts
  | clc
  | sec
  | cli
  | sei
  | cld
  | sed
  | clv
  | lda (m : AddressingMode)
  | ldx (m : AddressingMode)
  | ldy (m : AddressingMode)
  | sta (m : AddressingMode)
  | stx (m : AddressingMode)
  | sty (m : AddressingMode)
  | tax
  | tay
  | tsx
  | txa
  | txs
  | tya
  | pha
  | php
  | pla
  | plp
  | dec (m : AddressingMode)
  | dex
  | dey
  | inc (m : AddressingMode)
  | inx
  | iny
  | asl (m : Option AddressingMode)
  | lsr (m : Option AddressingMode)
  | rol (m : Option AddressingMode)
  | ror (m : Option AddressingMode)
  | adc (m : AddressingMode)
  | and_op (m : AddressingMode)
  | eor (m : AddressingMode)
  | ora (m : AddressingMode)
  | sbc (m : AddressingMode)
  | bit (m : AddressingMode)
  | compare (r : Reg) (m : AddressingMode)
deriving DecidableEq

/-- The dispatch table built by CPU6502.build_opcode_table from the opcode
decorators, as a total function: an opcode byte with no registration falls
back to the brk handler, mirroring the .get default in step.  Branch flag
indices: N=7, V=6, C=0, Z=1. -/
def decode : Nat → Instr
  | 0x10 => .branch 7 0
  | 0x30 => .branch 7 1
  | 0x50 => .branch 6 0
  | 0x70 => .branch 6 1
  | 0x90 => .branch 0 0
  | 0xb0 => .branch 0 1
  | 0xd0 => .branch 1 0
  | 0xf0 => .branch 1 1
  | 0x00 => .brk
  | 0x4c => .jmpAbs
  | 0x6c => .jmpInd
  | 0x20 => .jsr
  | 0xea => .nop
  | 0x60 => .rts
  | 0x18 => .clc
  | 0x38 => .sec
  | 0x58 => .cli
  | 0x78 => .sei
  | 0xd8 => .cld
  | 0xf8 => .sed
  | 0xb8 => .clv
  | 0xa9 => .lda .immediate
  | 0xa5 => .lda .zeroPage
  | 0xb5 => .lda .zeroPageX
  | 0xad => .lda .absolute
  | 0xbd => .lda .absoluteX
  | 0xb9 => .lda .absoluteY
  | 0xa1 => .lda .indirectX
  | 0xb1 => .lda .indirectY
  | 0xa2 => .ldx .immediate
  | 0xa6 => .ldx .zeroPage
  | 0xb6 => .ldx .zeroPageY
  | 0xae => .ldx .absolute
  | 0xbe => .ldx .absoluteY
  | 0xa0 => .ldy .immediate
  | 0xa4 => .ldy .zeroPage
  | 0xb4 => .ldy .zeroPageX
  | 0xac => .ldy .absolute
  | 0xbc => .ldy .absoluteX
  | 0x85 => .sta .zeroPage
  | 0x95 => .sta .zeroPageX
  | 0x8d => .sta .absolute
  | 0x9d => .sta .absoluteX
  | 0x99 => .sta .absoluteY
  | 0x81 => .sta .indirectX
  | 0x91 => .sta .indirectY
  | 0x86 => .stx .zeroPage
  | 0x96 => .stx .zeroPageY
  | 0x8e => .stx .absolute
  | 0x84 => .sty .zeroPage
  | 0x94 => .sty .zeroPageX
  | 0x8c => .sty .absolute
  | 0xaa => .tax
  | 0xa8 => .tay
  | 0xba => .tsx
  | 0x8a => .txa
  | 0x9a => .txs
  | 0x98 => .tya
  | 0x48 => .pha
  | 0x08 => .php
  | 0x68 => .pla
  | 0x28 => .plp
  | 0xc6 => .dec .zeroPage
  | 0xd6 => .dec .zeroPageX
  | 0xce => .dec .absolute
  | 0xde => .dec .absoluteX
  | 0xca => .dex
  | 0x88 => .dey
  | 0xe6 => .inc .zeroPage
  | 0xf6 => .inc .zeroPageX
  | 0xee => .inc .absolute
  | 0xfe => .inc .absoluteX
  | 0xe8 => .inx
  | 0xc8 => .iny
  | 0x0a => .asl none
  | 0x06 => .asl (some .zeroPage)
  | 0x16 => .asl (some .zeroPageX)
  | 0x0e => .asl (some .absolute)
  | 0x1e => .asl (some .absoluteX)
  | 0x4a => .lsr none
  | 0x46 => .lsr (some .zeroPage)
  | 0x56 => .lsr (some .zeroPageX)
  | 0x4e => .lsr (some .absolute)
  | 0x5e => .lsr (some .absoluteX)
  | 0x2a => .rol none
  | 0x26 => .rol (some .zeroPage)
  | 0x36 => .rol (some .zeroPageX)
  | 0x2e => .rol (some .absolute)
  | 0x3e => .rol (some .absoluteX)
  | 0x6a => .ror none
  | 0x66 => .ror (some .zeroPage)
  | 0x76 => .ror (some .zeroPageX)
  | 0x6e => .ror (some .absolute)
  | 0x7e => .ror (some .absoluteX)
  | 0x69 => .adc .immediate
  | 0x65 => .adc .zeroPage
  | 0x75 => .adc .zeroPageX
  | 0x6d => .adc .absolute
  | 0x7d => .adc .absoluteX
  | 0x79 => .adc .absoluteY
  | 0x61 => .adc .indirectX
  | 0x71 => .adc .indirectY
  | 0x29 => .and_op .immediate
  | 0x25 => .and_op .zeroPage
  | 0x35 => .and_op .zeroPageX
  | 0x2d => .and_op .absolute
  | 0x3d => .and_op .absoluteX
  | 0x39 => .and_op .absoluteY
  | 0x21 => .and_op .indirectX
  | 0x31 => .and_op .indirectY
  | 0x49 => .eor .immediate
  | 0x45 => .eor .zeroPage
  | 0x55 => .eor .zeroPageX
  | 0x4d => .eor .absolute
  | 0x5d => .eor .absoluteX
  | 0x59 => .eor .absoluteY
  | 0x41 => .eor .indirectX
  | 0x51 => .eor .indirectY
  | 0x09 => .ora .immediate
  | 0x05 => .ora .zeroPage
  | 0x15 => .ora .zeroPageX
  | 0x0d => .ora .absolute
  | 0x1d => .ora .absoluteX
  | 0x19 => .ora .absoluteY
  | 0x01 => .ora .indirectX
  | 0x11 => .ora .indirectY
  | 0xe9 => .sbc .immediate
  | 0xe5 => .sbc .zeroPage
  | 0xf5 => .sbc .zeroPageX
  | 0xed => .sbc .absolute
  | 0xfd => .sbc .absoluteX
  | 0xf9 => .sbc .absoluteY
  | 0xe1 => .sbc .indirectX
  | 0xf1 => .sbc .indirectY
  | 0x24 => .bit .zeroPage
  | 0x2c => .bit .absolute
  | 0xc9 => .compare .a .immediate
  | 0xc5 => .compare .a .zeroPage
  | 0xd5 => .compare .a .zeroPageX
  | 0xcd => .compare .a .absolute
  | 0xdd => .compare .a .absoluteX
  | 0xd9 => .compare .a .absoluteY
  | 0xc1 => .compare .a .indirectX
  | 0xd1 => .compare .a .indirectY
  | 0xe0 => .compare .x .immediate
  | 0xe4 => .compare .x .zeroPage
  | 0xec => .compare .x .absolute
  | 0xc0 => .compare .y .immediate
  | 0xc4 => .compare .y .zeroPage
  | 0xcc => .compare .y .absolute
  | _ => .brk

/-- Execute one dispatched handler.  Only adc and sbc can raise (through
dec_to_bcd); every other handler always returns a state. -/
def execInstr : Instr → CPU → Option CPU
  | .branch fi fv, s => some (branch fi fv s)
  | .brk, s => some (brk s)
  | .jmpAbs, s => some (jmp_absolute s)
  | .jmpInd, s => some (jmp_indirect s)
  | .jsr, s => some (jsr s)
  | .nop, s => some (nop s)
  | .rts, s => some (rts s)
  | .clc, s => some (clc s)
  | .sec, s => some (sec s)
  | .cli, s => some (cli s)
  | .sei, s => some (sei s)
  | .cld, s => some (cld s)
  | .sed, s => some (sed s)
  | .clv, s => some (clv s)
  | .lda m, s => some (lda m s)
  | .ldx m, s => some (ldx m s)
  | .ldy m, s => some (ldy m s)
  | .sta m, s => some (sta m s)
  | .stx m, s => some (stx m s)
  | .sty m, s => some (sty m s)
  | .tax, s => some (tax s)
  | .tay, s => some (tay s)
  | .tsx, s => some (tsx s)
  | .txa, s => some (txa s)
  | .txs, s => some (txs s)
  | .tya, s => some (tya s)
  | .pha, s => some (pha s)
  | .php, s => some (php s)
  | .pla, s => some (pla s)
  | .plp, s => some (plp s)
  | .dec m, s => some (dec m s)
  | .dex, s => some (dex s)
  | .dey, s => some (dey s)
  | .inc m, s => some (inc m s)
  | .inx, s => some (inx s)
  | .iny, s => some (iny s)
  | .asl m, s => some (asl m s)
  | .lsr m, s => some (lsr m s)
  | .rol m, s => some (rol m s)
  | .ror m, s => some (ror m s)
  | .adc m, s => adc m s
  | .and_op m, s => some (and_op m s)
  | .eor m, s => some (eor m s)
  | .ora m, s => some (ora m s)
  | .sbc m, s => sbc m s
  | .bit m, s => some (bit m s)
  | .compare r m, s => some (compare r m s)

/-- CPU6502.step: fetch the opcode byte at PC, advance PC by one (without
wrap), run the handler (unknown opcodes fall back to brk), then the
post-check: when both I (bit 2) and B (bit 4) are set, B is cleared and the
step reports a BRK result. -/
def step (s : CPU) : Option (CPU × StepResult) :=
  let opcode := readMem s.mem s.pc
  let s := { s with pc := s.pc + 1 }
  (execInstr (decode opcode) s).map fun s2 =>
    if getBit s2.status 2 = 1 ∧ getBit s2.status 4 = 1 then
      ({ s2 with status := clearBit s2.status 4 }, .brk)
    else (s2, .normal)

/-- CPU states arising in the runner discipline: construction, completed
steps, interrupt requests delivered between steps, and bus-visible mutation
performed by external code between steps (peripherals and loaders write
through the bus but never touch CPU registers). -/
inductive Reach : CPU → Prop
  | start (m : Mem) : Reach (CPU.new m)
  | doStep {s s' : CPU} {r : StepResult} : Reach s → step s = some (s', r) → Reach s'
  | doIrq {s : CPU} : Reach s → Reach (irq s)
  | doNmi {s : CPU} : Reach s → Reach (nmi s)
  | hook {s : CPU} (m : Mem) : Reach s → Reach { s with mem := m }

/-- Modelled from the spec: the repository declares RST_VECTOR = 0xfffc on
CPU6502 but implements no reset() method (nothing in the source calls or
defines one).  Spec words: a full reset() implementation MUST set I, clear D,
leave A, X, Y and the remaining flags unchanged, decrement SP by 3, and set
PC from the RESET vector at 0xfffc/0xfffd read as a little-endian word. -/
def reset (s : CPU) : CPU :=
  { s with status := clearBit (setBit s.status 2) 3,
           sp := (s.sp + 253) % 256,
           pc := readMem s.mem 0xfffd * 256 + readMem s.mem 0xfffc }

/-- MemoryMapRegion from memory.py: an offset plus the backing Memory, of
which only the length matters to the overlap logic.  Offsets are Python ints,
hence Int, and top can be offset - 1 when the backing is empty. -/
structure MemoryMapRegion where
  offset : Int
  memLen : Nat

/-- MemoryMapRegion.top: highest address within the region. -/
def MemoryMapRegion.top (r : MemoryMapRegion) : Int := r.offset + r.memLen - 1

/-- MemoryMapRegion.__contains__: offset ≤ address ≤ top. -/
def MemoryMapRegion.containsAddr (r : MemoryMapRegion) (address : Int) : Bool :=
  address ≥ r.offset && address ≤ r.top

/-- MemoryMapRegion.overlaps: tests only whether the other region's first or
last address falls inside this region. -/
def MemoryMapRegion.overlaps (r other : MemoryMapRegion) : Bool :=
  r.containsAddr other.offset || r.containsAddr other.top

/-- MemoryMap.add_block: build the new region, raise (none) when overlaps
reports an overlap against any existing region, else append. -/
def add_block (regions : List MemoryMapRegion) (offset : Int) (memLen : Nat) :
    Option (List MemoryMapRegion) :=
  let region : MemoryMapRegion := ⟨offset, memLen⟩
  if regions.any fun r => region.overlaps r then none
  else some (regions ++ [region])

/-- Two address ranges intersect: some address lies in both regions. -/
def rangesIntersect (r other : MemoryMapRegion) : Prop :=
  ∃ a : Int, r.containsAddr a ∧ other.containsAddr a

/-- MemoryBlock._check_address_bounds: 0 ≤ address < len(mem), else
IndexError. -/
def check_address_bounds (mem : List Nat) (address : Int) : Bool :=
  0 ≤ address && address < mem.length

/-- MemoryBlock.write_bytes: bounds-check the start address and the start
address plus the byte count, then assign the slice (equal lengths, so the
list length is preserved). -/
def write_bytes (mem : List Nat) (start_address : Int) (sequence : List Nat) :
    Option (List Nat) :=
  if ¬ check_address_bounds mem start_address then none
  else if ¬ check_address_bounds mem (start_address + sequence.length) then none
  else some (mem.take start_address.toNat ++ sequence
             ++ mem.drop (start_address.toNat + sequence.length))

/-- bytes.fromhex on a string modelled as its list of hex-digit values:
consecutive digit pairs become bytes; an odd number of digits raises
ValueError (none). -/
def fromhex : List Nat → Option (List Nat)
  | [] => some []
  | [_] => none
  | h :: l :: rest => (fromhex rest).map fun bs => (h * 16 + l) :: bs

/-- MemoryBlock.write_bytes_hex: bounds-check the start address and the start
address plus the number of hex digits (the string length, twice the byte
count), then assign the decoded bytes to the slice of string length: the
replacement is shorter than the slice, so the list shrinks, exactly as a
Python bytearray does. -/
def write_bytes_hex (mem : List Nat) (start_address : Int) (hexDigits : List Nat) :
    Option (List Nat) :=
  if ¬ check_address_bounds mem start_address then none
  else if ¬ check_address_bounds mem (start_address + hexDigits.length) then none
  else (fromhex hexDigits).map fun bs =>
    mem.take start_address.toNat ++ bs ++ mem.drop (start_address.toNat + hexDigits.length)

/-- Byte-sized register file: A, X, Y and SP stay below 256 (every assignment
in the source masks to a byte or copies a byte). -/
def RegBytes (s : CPU) : Prop :=
  s.a < 256 ∧ s.x < 256 ∧ s.y < 256 ∧ s.sp < 256

/-- Invariant transported through one handler: byte registers and a clear B
bit. -/
def Inv (s : CPU) : Prop := RegBytes s ∧ getBit s.status 4 = 0


/-- Concrete state for the C1 witness: A = 200, carry in, D clear, memory
constantly 100. -/
def c1w : CPU :=
  { a := 200, x := 0, y := 0, pc := 0, sp := 0xff, status := 0x21, cycles := 0,
    mem := fun _ => 100 }

/-- Memory for the C2 check: a PLP opcode at address 0, everything else 0, so
the pulled status byte is 0 and has bit 5 clear. -/
def c2mem : Mem := fun a => if a = 0 then 0x28 else 0

/-- State for the C2 check, about to execute the PLP at address 0. -/
def c2state : CPU :=
  { a := 0, x := 0, y := 0, pc := 0, sp := 0xf0, status := 0x26, cycles := 0, mem := c2mem }

/-- Second state for the C2 check: a NOP fetched at PC = 0xffff. -/
def c2state2 : CPU :=
  { a := 0, x := 0, y := 0, pc := 0xffff, sp := 0xff, status := 0x26, cycles := 0,
    mem := fun _ => 0xea }

/-- Memory for the C4 witness, the indirect-jump page-wrap scenario of the
spec: jump through the pointer 0x01ff; low target byte 0 at 0x01ff, high
target byte 2 at the start of the same page 0x0100. -/
def c4mem : Mem :=
  fun a => if a = 0 then 0x6c else if a = 1 then 0xff else if a = 2 then 0x01
    else if a = 0x0100 then 0x02 else 0

/-- State for the C4 witness, about to execute the indirect JMP at address 0. -/
def c4w : CPU :=
  { a := 0, x := 0, y := 0, pc := 0, sp := 0xff, status := 0x26, cycles := 0, mem := c4mem }

/-- Decimal value of a packed-BCD byte, as the claim reads it: tens from the
high nibble, ones from the low nibble. -/
def decValue (b : Nat) : Nat := b / 16 * 10 + b % 16

/-- Packed-BCD encoding of a number below 100, as the claim reads it. -/
def bcdValue (n : Nat) : Nat := n / 10 * 16 + n % 10

/-- Concrete state for the C5 and C9 witnesses: A = BCD 25, carry in, decimal
mode on, memory constantly BCD 48. -/
def c5w : CPU :=
  { a := 0x25, x := 0, y := 0, pc := 0, sp := 0xff, status := 0x29, cycles := 0,
    mem := fun _ => 0x48 }

/-- Non-BCD input on which decimal ADC raises: A = 0xff, M = 0xff, carry in,
decimal mode on (the reduced decimal sum 231 is out of dec_to_bcd range). -/
def c9bad1 : CPU :=
  { a := 0xff, x := 0, y := 0, pc := 0, sp := 0xff, status := 0x29, cycles := 0,
    mem := fun _ => 0xff }

/-- Non-BCD input on which decimal SBC raises: A = 0xff, M = 0, carry in,
decimal mode on (the decimal difference 165 is out of dec_to_bcd range). -/
def c9bad2 : CPU :=
  { a := 0xff, x := 0, y := 0, pc := 0, sp := 0xff, status := 0x29, cycles := 0,
    mem := fun _ => 0 }

/-- Memory for the C6 witness: a JSR 0x0309 at 0x0300 and an RTS at 0x0309. -/
def c6mem : Mem :=
  fun a => if a = 0x0300 then 0x20 else if a = 0x0301 then 0x09
    else if a = 0x0302 then 0x03 else if a = 0x0309 then 0x60 else 0

/-- State for the C6 witness, about to execute the JSR at 0x0300. -/
def c6w : CPU :=
  { CPU.new c6mem with pc := 0x0300 }

/-- The state after the C6 witness's JSR step (total projection of step). -/
def c6s1 : CPU :=
  ((step c6w).getD (CPU.new c6mem, .normal)).1

/-- The state after the C6 witness's RTS step. -/
def c6s3 : CPU :=
  ((step c6s1).getD (CPU.new c6mem, .normal)).1

/-- Memory for the C10 witness: all zero, so the first instruction is BRK. -/
def c10mem : Mem := fun _ => 0


theorem two_pow_pos (i : Nat) : 0 < 2 ^ i := Nat.pos_pow_of_pos i (by norm_num)

theorem getBit_le_one (n i : Nat) : getBit n i ≤ 1 :=
  Nat.lt_succ_iff.mp (Nat.mod_lt _ (by norm_num))

theorem setFlag_eq (n i v : Nat) :
    setFlag n i v = (n % 2 ^ i + 2 ^ i * v) + 2 ^ (i + 1) * (n / 2 ^ (i + 1)) := by
  unfold setFlag clearBit
  ring

theorem getBit_setFlag_self (st i v : Nat) (hv : v ≤ 1) :
    getBit (setFlag st i v) i = v := by
  rw [setFlag_eq]
  unfold getBit
  rw [show st % 2 ^ i + 2 ^ i * v + 2 ^ (i + 1) * (st / 2 ^ (i + 1)) =
      st % 2 ^ i + 2 ^ i * (v + 2 * (st / 2 ^ (i + 1))) by rw [pow_succ]; ring]
  rw [Nat.add_mul_div_left _ _ (two_pow_pos i),
      Nat.div_eq_of_lt (Nat.mod_lt _ (two_pow_pos i))]
  omega

theorem getBit_add_pow_mul (r m j : Nat) : getBit (r + 2 ^ (j + 1) * m) j = getBit r j := by
  unfold getBit
  rw [show r + 2 ^ (j + 1) * m = r + 2 ^ j * (2 * m) by rw [pow_succ]; ring]
  rw [Nat.add_mul_div_left _ _ (two_pow_pos j)]
  rw [show r / 2 ^ j + 2 * m = r / 2 ^ j + m * 2 by ring]
  rw [Nat.add_mul_mod_self_right]

theorem getBit_mod_pow (st i j : Nat) (hj : j < i) : getBit (st % 2 ^ i) j = getBit st j := by
  conv_rhs => rw [← Nat.mod_add_div st (2 ^ i)]
  obtain ⟨k, rfl⟩ : ∃ k, i = (j + 1) + k := ⟨i - (j + 1), by omega⟩
  rw [show st % 2 ^ (j + 1 + k) + 2 ^ (j + 1 + k) * (st / 2 ^ (j + 1 + k)) =
      st % 2 ^ (j + 1 + k) + 2 ^ (j + 1) * (2 ^ k * (st / 2 ^ (j + 1 + k))) by
    rw [pow_add]; ring]
  rw [getBit_add_pow_mul]

theorem getBit_add_pow_mul_high (r q i j : Nat) (hr : r < 2 ^ (i + 1)) (hj : i + 1 ≤ j) :
    getBit (r + 2 ^ (i + 1) * q) j = getBit q (j - (i + 1)) := by
  obtain ⟨k, rfl⟩ : ∃ k, j = (i + 1) + k := ⟨j - (i + 1), by omega⟩
  rw [show (i + 1) + k - (i + 1) = k by omega]
  unfold getBit
  rw [show (2 : Nat) ^ (i + 1 + k) = 2 ^ (i + 1) * 2 ^ k by rw [← pow_add]]
  rw [← Nat.div_div_eq_div_mul]
  rw [Nat.add_mul_div_left _ _ (two_pow_pos (i + 1)), Nat.div_eq_of_lt hr]
  simp

theorem getBit_setFlag_gt (st i j v : Nat) (hv : v ≤ 1) (hj : i < j) :
    getBit (setFlag st i v) j = getBit st j := by
  rw [setFlag_eq]
  have h1 : st % 2 ^ i + 2 ^ i * v < 2 ^ (i + 1) := by
    have ha := Nat.mod_lt st (two_pow_pos i)
    have hb : 2 ^ i * v ≤ 2 ^ i * 1 := Nat.mul_le_mul_left _ hv
    rw [pow_succ]
    omega
  rw [getBit_add_pow_mul_high _ _ _ _ h1 (by omega)]
  conv_rhs => rw [← Nat.mod_add_div st (2 ^ (i + 1))]
  rw [getBit_add_pow_mul_high _ _ _ _ (Nat.mod_lt _ (two_pow_pos (i + 1))) (by omega)]

theorem getBit_setFlag_lt (st i j v : Nat) (hj : j < i) :
    getBit (setFlag st i v) j = getBit st j := by
  rw [setFlag_eq]
  obtain ⟨k, rfl⟩ : ∃ k, i = (j + 1) + k := ⟨i - (j + 1), by omega⟩
  rw [show st % 2 ^ (j + 1 + k) + 2 ^ (j + 1 + k) * v + 2 ^ (j + 1 + k + 1) * (st / 2 ^ (j + 1 + k + 1)) =
      st % 2 ^ (j + 1 + k) + 2 ^ (j + 1) * (2 ^ k * v + 2 ^ k * 2 * (st / 2 ^ (j + 1 + k + 1))) by
    rw [pow_add, pow_add, pow_succ]; ring]
  rw [getBit_add_pow_mul, getBit_mod_pow _ _ _ (by omega)]

theorem getBit_setFlag (st i j v : Nat) (hv : v ≤ 1) :
    getBit (setFlag st i v) j = if j = i then v else getBit st j := by
  rcases Nat.lt_trichotomy j i with h | h | h
  · rw [if_neg (by omega), getBit_setFlag_lt _ _ _ _ h]
  · subst h; rw [if_pos rfl, getBit_setFlag_self _ _ _ hv]
  · rw [if_neg (by omega), getBit_setFlag_gt _ _ _ _ hv h]

theorem clearBit_eq_setFlag (n i : Nat) : clearBit n i = setFlag n i 0 := by
  unfold setFlag
  omega

theorem getBit_clearBit (st i j : Nat) :
    getBit (clearBit st i) j = if j = i then 0 else getBit st j := by
  rw [clearBit_eq_setFlag, getBit_setFlag _ _ _ _ (by omega)]

theorem getBit_setBit (st i j : Nat) :
    getBit (setBit st i) j = if j = i then 1 else getBit st j := by
  unfold setBit
  rw [getBit_setFlag _ _ _ _ (by omega)]

theorem readMem_lt (m : Mem) (a : Nat) : readMem m a < 256 :=
  Nat.mod_lt _ (by norm_num)

theorem resolve_status (mode : AddressingMode) (s : CPU) :
    (resolve_address mode s).1.status = s.status := by
  cases mode <;> rfl

theorem resolve_a (mode : AddressingMode) (s : CPU) :
    (resolve_address mode s).1.a = s.a := by
  cases mode <;> rfl

theorem resolve_x (mode : AddressingMode) (s : CPU) :
    (resolve_address mode s).1.x = s.x := by
  cases mode <;> rfl

theorem resolve_y (mode : AddressingMode) (s : CPU) :
    (resolve_address mode s).1.y = s.y := by
  cases mode <;> rfl

theorem resolve_sp (mode : AddressingMode) (s : CPU) :
    (resolve_address mode s).1.sp = s.sp := by
  cases mode <;> rfl

theorem resolve_mem (mode : AddressingMode) (s : CPU) :
    (resolve_address mode s).1.mem = s.mem := by
  cases mode <;> rfl

theorem overflow_bit_le_one (a b c : Nat) : overflow_bit a b c ≤ 1 :=
  mul_le_one' (by have := getBit_le_one (a ^^^ b) 7; omega) (getBit_le_one _ _)

/-- C1: with the decimal flag clear, ADC in every addressing mode leaves the
accumulator at (A + M + C_in) mod 256, the carry flag at (A + M + C_in) / 256,
and the overflow flag set exactly when bit 7 of (A xor M) is 0 while bit 7 of
(A xor result) is 1 — the standard signed-overflow formula. -/
theorem adc_binary_correct (mode : AddressingMode) (s : CPU) (M : Nat)
    (hM : M < 256) (ha : s.a < 256)
    (hmem : s.mem = fun _ => M) (hD : getBit s.status 3 = 0) :
    ∃ s', adc mode s = some s' ∧
      s'.a = (s.a + M + getBit s.status 0) % 256 ∧
      getBit s'.status 0 = (s.a + M + getBit s.status 0) / 256 ∧
      (getBit s'.status 6 = 1 ↔
        (getBit (s.a ^^^ M) 7 = 0 ∧
         getBit (s.a ^^^ ((s.a + M + getBit s.status 0) % 256)) 7 = 1)) := by
  have hop : readMem (resolve_address mode s).1.mem (resolve_address mode s).2.1 = M := by
    rw [resolve_mem, hmem]
    unfold readMem
    exact Nat.mod_eq_of_lt hM
  have hcin := getBit_le_one s.status 0
  have hcarry : (s.a + M + getBit s.status 0) / 256 ≤ 1 := by omega
  have hz : (if (s.a + M + getBit s.status 0) % 256 = 0 then (1 : Nat) else 0) ≤ 1 := by
    split <;> omega
  have hn := getBit_le_one ((s.a + M + getBit s.status 0) % 256) 7
  have hv := overflow_bit_le_one s.a M ((s.a + M + getBit s.status 0) % 256)
  simp only [adc, hop, resolve_status, resolve_a, hD, if_pos rfl, Option.map_some]
  refine ⟨_, rfl, ?_, ?_, ?_⟩
  · simp only [apply_ite CPU.a]
    simp
  · simp only [apply_ite CPU.status, ite_self]
    simp only [update_overflow_flag, update_negative_flag, update_zero_flag]
    rw [getBit_setFlag _ _ _ _ hv, if_neg (by omega),
        getBit_setFlag _ _ _ _ hn, if_neg (by omega),
        getBit_setFlag _ _ _ _ hz, if_neg (by omega),
        getBit_setFlag_self _ _ _ hcarry]
  · simp only [apply_ite CPU.status, ite_self]
    simp only [update_overflow_flag, update_negative_flag, update_zero_flag]
    rw [getBit_setFlag_self _ _ _ hv]
    unfold overflow_bit
    have h1 := getBit_le_one (s.a ^^^ M) 7
    have h2 := getBit_le_one (s.a ^^^ ((s.a + M + getBit s.status 0) % 256)) 7
    constructor
    · intro hp
      have p1 := Nat.eq_one_of_mul_eq_one_right hp
      have p2 := Nat.eq_one_of_mul_eq_one_left hp
      exact ⟨by omega, p2⟩
    · intro hp
      obtain ⟨p1, p2⟩ := hp
      rw [p1, p2]

/-- C2: the claimed invariant fails on the code.  A PLP that pulls the byte 0
leaves the status register with bit 5 (the claimed always-one unused bit)
clear, and a NOP fetched at PC = 0xffff ends the step with PC = 0x10000,
outside the claimed 16-bit range: step neither masks the PC increment nor
forces bit 5 on PLP. -/
theorem step_invariant_violations :
    (step c2state).map (fun q => (getBit q.1.status 5, q.2)) = some (0, .normal) ∧
    (step c2state2).map (fun q => q.1.pc) = some 0x10000 := by
  constructor
  · decide
  · decide

/-- Witness for C1 at a concrete input: A = 200, M = 100, carry in. -/
theorem adc_binary_correct_witness :
    (100 : Nat) < 256 ∧ c1w.a < 256 ∧ getBit c1w.status 3 = 0 ∧
    ∃ s', adc .immediate c1w = some s' ∧
      s'.a = (c1w.a + 100 + getBit c1w.status 0) % 256 ∧
      getBit s'.status 0 = (c1w.a + 100 + getBit c1w.status 0) / 256 ∧
      (getBit s'.status 6 = 1 ↔
        (getBit (c1w.a ^^^ 100) 7 = 0 ∧
         getBit (c1w.a ^^^ ((c1w.a + 100 + getBit c1w.status 0) % 256)) 7 = 1)) :=
  ⟨by decide, by decide, by decide,
   adc_binary_correct .immediate c1w 100 (by decide) (by decide) rfl (by decide)⟩

/-- C4: executing JMP (indirect) on a pointer p sets PC to a word whose low
byte is read at p and whose high byte is read at the same page joined with
the wrapped incremented low byte, and costs 5 cycles; with low byte 0xff the
high-byte address is the start of p's page, not p + 1. -/
theorem jmp_indirect_pagewrap (s : CPU) (p : Nat) (hp : p < 65536)
    (hop : readMem s.mem s.pc = 0x6c)
    (hlo : readMem s.mem (s.pc + 1) = p % 256)
    (hhi : readMem s.mem ((s.pc + 2) % 65536) = p / 256) :
    ∃ s' r, step s = some (s', r) ∧
      s'.pc = readMem s.mem (p / 256 * 256 + (p + 1) % 256) * 256 + readMem s.mem p ∧
      s'.cycles = s.cycles + 5 ∧
      (p % 256 = 0xff →
        p / 256 * 256 + (p + 1) % 256 = p - 0xff ∧
        p / 256 * 256 + (p + 1) % 256 ≠ p + 1) := by
  have hdec : decode (readMem s.mem s.pc) = .jmpInd := by rw [hop]; rfl
  have hptr : p / 256 * 256 + p % 256 = p := by omega
  simp only [step, hdec, execInstr, jmp_indirect, Option.map_some, Option.map]
  by_cases hc : getBit s.status 2 = 1 ∧ getBit s.status 4 = 1
  · rw [if_pos hc]
    refine ⟨_, _, rfl, ?_, ?_, ?_⟩
    · simp only [show s.pc + 1 + 1 = s.pc + 2 from rfl, hlo, hhi, hptr]
    · rfl
    · intro hff
      constructor <;> omega
  · rw [if_neg hc]
    refine ⟨_, _, rfl, ?_, ?_, ?_⟩
    · simp only [show s.pc + 1 + 1 = s.pc + 2 from rfl, hlo, hhi, hptr]
    · rfl
    · intro hff
      constructor <;> omega

/-- Witness for C4 at the spec's page-wrap scenario: pointer 0x01ff, target
read from 0x01ff and 0x0100. -/
theorem jmp_indirect_pagewrap_witness :
    (0x01ff : Nat) < 65536 ∧ readMem c4w.mem c4w.pc = 0x6c ∧
    readMem c4w.mem (c4w.pc + 1) = 0x01ff % 256 ∧
    readMem c4w.mem ((c4w.pc + 2) % 65536) = 0x01ff / 256 ∧
    ∃ s' r, step c4w = some (s', r) ∧
      s'.pc = readMem c4w.mem (0x01ff / 256 * 256 + (0x01ff + 1) % 256) * 256 +
              readMem c4w.mem 0x01ff ∧
      s'.cycles = c4w.cycles + 5 ∧
      (0x01ff % 256 = 0xff →
        0x01ff / 256 * 256 + (0x01ff + 1) % 256 = 0x01ff - 0xff ∧
        0x01ff / 256 * 256 + (0x01ff + 1) % 256 ≠ 0x01ff + 1) :=
  ⟨by decide, by decide, by decide, by decide,
   jmp_indirect_pagewrap c4w 0x01ff (by decide) (by decide) (by decide) (by decide)⟩


/-- C5: with the decimal flag set and both the accumulator and the operand
valid packed BCD, ADC in every addressing mode leaves the accumulator a valid
packed BCD byte encoding (dec(A) + dec(M) + C_in) mod 100, and the carry flag
is 1 exactly when dec(A) + dec(M) + C_in is at least 100. -/
theorem adc_decimal_correct (mode : AddressingMode) (s : CPU) (M : Nat)
    (hMlo : M % 16 ≤ 9) (hMhi : M / 16 ≤ 9)
    (halo : s.a % 16 ≤ 9) (hahi : s.a / 16 ≤ 9)
    (hmem : s.mem = fun _ => M) (hD : getBit s.status 3 = 1) :
    ∃ s', adc mode s = some s' ∧
      s'.a % 16 ≤ 9 ∧ s'.a / 16 ≤ 9 ∧
      s'.a = bcdValue ((decValue s.a + decValue M + getBit s.status 0) % 100) ∧
      (getBit s'.status 0 = 1 ↔ 100 ≤ decValue s.a + decValue M + getBit s.status 0) := by
  have hM256 : M < 256 := by omega
  have hop : readMem (resolve_address mode s).1.mem (resolve_address mode s).2.1 = M := by
    rw [resolve_mem, hmem]
    unfold readMem
    exact Nat.mod_eq_of_lt hM256
  have hcin := getBit_le_one s.status 0
  have hda : s.a / 16 * 10 + s.a % 16 = s.a % 16 + s.a / 16 * 10 := by omega
  have hdM : M / 16 * 10 + M % 16 = M % 16 + M / 16 * 10 := by omega
  simp only [adc, hop, resolve_status, resolve_a, hD, if_neg one_ne_zero]
  rcases Nat.lt_or_ge (s.a % 16 + s.a / 16 * 10 + (M % 16 + M / 16 * 10) + getBit s.status 0) 100
    with hlt | hge
  · simp only [if_neg (by omega : ¬ s.a % 16 + s.a / 16 * 10 + (M % 16 + M / 16 * 10) + getBit s.status 0 ≥ 100)]
    simp only [if_neg (by omega : ¬ (0 : Nat) = 1)]
    simp only [dec_to_bcd, if_neg (by omega : ¬ ((((s.a % 16 + s.a / 16 * 10 + (M % 16 + M / 16 * 10) + getBit s.status 0) : Nat) : Int) < 0 ∨ (((s.a % 16 + s.a / 16 * 10 + (M % 16 + M / 16 * 10) + getBit s.status 0) : Nat) : Int) > 99))]
    simp only [Option.map_some, Option.map]
    refine ⟨_, rfl, ?_, ?_, ?_, ?_⟩
    · simp [apply_ite CPU.a]
      omega
    · simp [apply_ite CPU.a]
      omega
    · simp [apply_ite CPU.a, decValue, bcdValue]
      omega
    · simp only [apply_ite CPU.status, ite_self]
      simp only [update_overflow_flag, update_negative_flag, update_zero_flag]
      rw [getBit_setFlag _ _ _ _ (overflow_bit_le_one _ _ _), if_neg (by omega),
          getBit_setFlag _ _ _ _ (getBit_le_one _ _), if_neg (by omega),
          getBit_setFlag _ _ _ _ (by split <;> omega), if_neg (by omega),
          getBit_setFlag_self _ _ _ (by omega)]
      simp only [decValue]
      omega
  · rw [if_pos (show s.a % 16 + s.a / 16 * 10 + (M % 16 + M / 16 * 10) + getBit s.status 0 >= 100 by omega)]
    rw [if_pos (rfl : (1 : Nat) = 1)]
    simp only [dec_to_bcd, if_neg (by omega : ¬ ((((s.a % 16 + s.a / 16 * 10 + (M % 16 + M / 16 * 10) + getBit s.status 0 - 100) : Nat) : Int) < 0 ∨ (((s.a % 16 + s.a / 16 * 10 + (M % 16 + M / 16 * 10) + getBit s.status 0 - 100) : Nat) : Int) > 99))]
    simp only [Option.map_some, Option.map]
    refine ⟨_, rfl, ?_, ?_, ?_, ?_⟩
    · simp [apply_ite CPU.a]
      omega
    · simp [apply_ite CPU.a]
      omega
    · simp [apply_ite CPU.a, decValue, bcdValue]
      omega
    · simp only [apply_ite CPU.status, ite_self]
      simp only [update_overflow_flag, update_negative_flag, update_zero_flag]
      rw [getBit_setFlag _ _ _ _ (overflow_bit_le_one _ _ _), if_neg (by omega),
          getBit_setFlag _ _ _ _ (getBit_le_one _ _), if_neg (by omega),
          getBit_setFlag _ _ _ _ (by split <;> omega), if_neg (by omega),
          getBit_setFlag_self _ _ _ (by omega)]
      simp only [decValue]
      constructor
      · intro h2
        omega
      · intro h2
        trivial

/-- Witness for C5 at a concrete input: BCD 25 plus BCD 48 plus carry. -/
theorem adc_decimal_correct_witness :
    (0x48 : Nat) % 16 ≤ 9 ∧ (0x48 : Nat) / 16 ≤ 9 ∧ c5w.a % 16 ≤ 9 ∧ c5w.a / 16 ≤ 9 ∧
    getBit c5w.status 3 = 1 ∧
    ∃ s', adc .immediate c5w = some s' ∧
      s'.a % 16 ≤ 9 ∧ s'.a / 16 ≤ 9 ∧
      s'.a = bcdValue ((decValue c5w.a + decValue 0x48 + getBit c5w.status 0) % 100) ∧
      (getBit s'.status 0 = 1 ↔ 100 ≤ decValue c5w.a + decValue 0x48 + getBit c5w.status 0) :=
  ⟨by decide, by decide, by decide, by decide, by decide,
   adc_decimal_correct .immediate c5w 0x48 (by decide) (by decide) (by decide) (by decide)
     rfl (by decide)⟩

theorem isSome_map {α β : Type} (f : α → β) (o : Option α) : (o.map f).isSome = o.isSome := by
  cases o <;> rfl

theorem dec_to_bcd_isSome {d : Int} (h0 : 0 ≤ d) (h99 : d ≤ 99) : (dec_to_bcd d).isSome := by
  unfold dec_to_bcd
  rw [if_neg (by omega)]
  rfl

/-- C9: with the decimal flag set and both the accumulator and the operand
valid packed BCD, ADC and SBC never raise: the decimal branch always hands
dec_to_bcd a value between 0 and 99.  Without the precondition the error is
reachable: decimal ADC raises on A = M = 0xff and decimal SBC raises on
A = 0xff, M = 0. -/
theorem adc_sbc_decimal_total (mode : AddressingMode) (s : CPU)
    (hD : getBit s.status 3 = 1)
    (halo : s.a % 16 ≤ 9) (hahi : s.a / 16 ≤ 9)
    (hbcd : ∀ addr, readMem s.mem addr % 16 ≤ 9 ∧ readMem s.mem addr / 16 ≤ 9) :
    ((adc mode s).isSome ∧ (sbc mode s).isSome) ∧
    adc .immediate c9bad1 = none ∧ sbc .immediate c9bad2 = none := by
  obtain ⟨hol, hoh⟩ := hbcd (resolve_address mode s).2.1
  have hcin := getBit_le_one s.status 0
  refine ⟨⟨?_, ?_⟩, rfl, rfl⟩
  · simp only [adc, resolve_status, resolve_a, resolve_mem, hD, if_neg one_ne_zero]
    rw [isSome_map, isSome_map]
    rcases le_or_lt 100 (s.a % 16 + s.a / 16 * 10 +
        (readMem s.mem (resolve_address mode s).2.1 % 16 +
         readMem s.mem (resolve_address mode s).2.1 / 16 * 10) + getBit s.status 0) with h | h
    · rw [if_pos (show _ ≥ 100 from h), if_pos (rfl : (1 : Nat) = 1)]
      apply dec_to_bcd_isSome <;> omega
    · rw [if_neg (show ¬ _ ≥ 100 by omega), if_neg (show ¬ (0 : Nat) = 1 by omega)]
      apply dec_to_bcd_isSome <;> omega
  · simp only [sbc, resolve_status, resolve_a, resolve_mem, hD, if_neg one_ne_zero]
    rw [isSome_map, isSome_map]
    rcases le_or_lt 0 ((((s.a % 16 + s.a / 16 * 10 : Nat) : Int) -
        ((readMem s.mem (resolve_address mode s).2.1 % 16 +
          readMem s.mem (resolve_address mode s).2.1 / 16 * 10 : Nat) : Int) +
        ((getBit s.status 0 : Nat) : Int) - 1)) with h | h
    · rw [if_pos (show _ ≥ (0 : Int) from h), if_pos (rfl : (1 : Nat) = 1)]
      apply dec_to_bcd_isSome <;> omega
    · rw [if_neg (show ¬ _ ≥ (0 : Int) by omega), if_neg (show ¬ (0 : Nat) = 1 by omega)]
      apply dec_to_bcd_isSome <;> omega

/-- Witness for C9 at a concrete input: the BCD state of the C5 witness. -/
theorem adc_sbc_decimal_total_witness :
    ((adc .immediate c5w).isSome ∧ (sbc .immediate c5w).isSome) ∧
    adc .immediate c9bad1 = none ∧ sbc .immediate c9bad2 = none :=
  adc_sbc_decimal_total .immediate c5w (by decide) (by decide) (by decide)
    (fun addr => ⟨by norm_num [readMem, c5w], by norm_num [readMem, c5w]⟩)

/-- C8: the spec-modelled reset() sets I, clears D, leaves A, X, Y and every
other status bit unchanged, decrements SP by 3 mod 256, and loads PC from the
little-endian word at 0xfffc/0xfffd.  The repository itself has no reset()
implementation; the definition is modelled from the spec. -/
theorem reset_correct (s : CPU) :
    (reset s).a = s.a ∧ (reset s).x = s.x ∧ (reset s).y = s.y ∧
    getBit (reset s).status 2 = 1 ∧ getBit (reset s).status 3 = 0 ∧
    getBit (reset s).status 0 = getBit s.status 0 ∧
    getBit (reset s).status 1 = getBit s.status 1 ∧
    getBit (reset s).status 4 = getBit s.status 4 ∧
    getBit (reset s).status 5 = getBit s.status 5 ∧
    getBit (reset s).status 6 = getBit s.status 6 ∧
    getBit (reset s).status 7 = getBit s.status 7 ∧
    ((reset s).sp + 3) % 256 = s.sp % 256 ∧
    (reset s).pc = readMem s.mem 0xfffd * 256 + readMem s.mem 0xfffc := by
  refine ⟨rfl, rfl, rfl, ?_, ?_, ?_, ?_, ?_, ?_, ?_, ?_, ?_, rfl⟩
  all_goals simp [reset, getBit_clearBit, getBit_setBit]
  omega

/-- C3: the claimed intersects-iff-rejected property fails on the code.
Counterexample: a map holding the region covering 0 to 99 accepts a new
region covering 10 to 19, although the two ranges intersect (address 10 lies
in both): overlaps only tests whether the existing region's first or last
address falls inside the new region, which misses strict containment of the
new region in an existing one. -/
theorem add_block_misses_contained_overlap :
    (add_block [⟨0, 100⟩] 10 10).isSome = true ∧
    rangesIntersect ⟨10, 10⟩ ⟨0, 100⟩ := by
  refine ⟨rfl, 10, ?_, ?_⟩ <;> decide

theorem fromhex_even : ∀ (digits : List Nat), digits.length % 2 = 0 →
    ∃ bs, fromhex digits = some bs ∧ bs.length = digits.length / 2
  | [], _ => ⟨[], rfl, rfl⟩
  | [d], h => by simp at h
  | d1 :: d2 :: rest, h => by
      obtain ⟨bs, hbs, hlen⟩ := fromhex_even rest (by simp at h; omega)
      refine ⟨(d1 * 16 + d2) :: bs, by simp [fromhex, hbs], ?_⟩
      simp [hlen]
      omega

/-- C7 counterexample: the claimed raise-iff-range-leaves-span property fails.
write_bytes on a memory of 4 bytes rejects writing 2 bytes at address 2,
although the written range [2,4) stays inside the span (the bounds check
requires start plus length to be strictly below the size); write_bytes_hex on
a memory of 16 bytes rejects writing 4 bytes (8 hex digits) at address 12,
although [12,16) stays inside the span (its check even uses the hex-string
length, twice the byte count). -/
theorem write_bytes_overreject :
    write_bytes (List.replicate 4 0) 2 [171, 205] = none ∧
    (0 : Int) ≤ 2 ∧ (2 : Int) + 2 ≤ 4 ∧
    write_bytes_hex (List.replicate 16 0) 12 [0, 1, 0, 2, 0, 3, 0, 4] = none ∧
    (0 : Int) ≤ 12 ∧ (12 : Int) + 4 ≤ 16 := by
  refine ⟨rfl, by decide, by decide, rfl, by decide, by decide⟩

/-- C7 amended: write_bytes raises exactly when the start address or the
start address plus the byte count falls outside [0, size) — so also when the
written range merely ends at the memory's end — and otherwise writes the
bytes at the start address preserving the length; write_bytes_hex checks the
start address plus the hex-digit count (twice the byte count) instead, and
otherwise writes the decoded bytes at the start address (the list shrinks,
as the Python bytearray slice assignment does). -/
theorem write_bytes_amended (mem : List Nat) (start : Int) (seq digits : List Nat)
    (heven : digits.length % 2 = 0) :
    (write_bytes mem start seq = none ↔
      ¬(0 ≤ start ∧ start < mem.length ∧ start + seq.length < mem.length)) ∧
    (∀ out, write_bytes mem start seq = some out →
      out.length = mem.length ∧
      ∀ i, i < seq.length → out[start.toNat + i]? = seq[i]?) ∧
    (write_bytes_hex mem start digits = none ↔
      ¬(0 ≤ start ∧ start < mem.length ∧ start + digits.length < mem.length)) ∧
    (∀ out, write_bytes_hex mem start digits = some out →
      ∃ bs, fromhex digits = some bs ∧ bs.length = digits.length / 2 ∧
        ∀ i, i < bs.length → out[start.toNat + i]? = bs[i]?) := by
  obtain ⟨bs0, hbs0, hlen0⟩ := fromhex_even digits heven
  refine ⟨?_, ?_, ?_, ?_⟩
  · unfold write_bytes check_address_bounds
    split_ifs with h1 h2 <;> (try simp_all) <;> omega
  · intro out hout
    unfold write_bytes check_address_bounds at hout
    split_ifs at hout with h1 h2
    simp only [Option.some_inj] at hout
    subst hout
    simp only [check_address_bounds, Bool.and_eq_true, decide_eq_true_eq, Bool.not_eq_true,
      Bool.and_eq_false_iff, decide_eq_false_iff_not, not_lt, not_le, not_not] at h1 h2
    constructor
    · simp only [List.length_append, List.length_take, List.length_drop]
      omega
    · intro i hi
      rw [List.getElem?_append_left (by simp only [List.length_append, List.length_take]; omega)]
      rw [List.getElem?_append_right (by simp only [List.length_append, List.length_take]; omega)]
      simp only [List.length_take]
      rw [show start.toNat + i - min start.toNat mem.length = i by omega]
  · unfold write_bytes_hex check_address_bounds
    rw [hbs0]
    split_ifs with h1 h2 <;> (try simp_all) <;> omega
  · intro out hout
    unfold write_bytes_hex check_address_bounds at hout
    rw [hbs0] at hout
    split_ifs at hout with h1 h2
    simp only [Option.map, Option.some_inj] at hout
    subst hout
    simp only [check_address_bounds, Bool.and_eq_true, decide_eq_true_eq, Bool.not_eq_true,
      Bool.and_eq_false_iff, decide_eq_false_iff_not, not_lt, not_le, not_not] at h1 h2
    refine ⟨bs0, hbs0, hlen0, ?_⟩
    intro i hi
    rw [List.getElem?_append_left (by simp only [List.length_append, List.length_take]; omega)]
    rw [List.getElem?_append_right (by simp only [List.length_append, List.length_take]; omega)]
    simp only [List.length_take]
    rw [show start.toNat + i - min start.toNat mem.length = i by omega]

/-- Witness for C7 amended at a concrete input: 6 bytes of memory, one byte
written at address 1, hex digits 1 and 2. -/
theorem write_bytes_amended_witness :
    (write_bytes [0, 0, 0, 0, 0, 0] 1 [7] = none ↔
      ¬(0 ≤ (1 : Int) ∧ (1 : Int) < ([0, 0, 0, 0, 0, 0] : List Nat).length ∧
        (1 : Int) + ([7] : List Nat).length < ([0, 0, 0, 0, 0, 0] : List Nat).length)) ∧
    (∀ out, write_bytes [0, 0, 0, 0, 0, 0] 1 [7] = some out →
      out.length = ([0, 0, 0, 0, 0, 0] : List Nat).length ∧
      ∀ i, i < ([7] : List Nat).length → out[(1 : Int).toNat + i]? = ([7] : List Nat)[i]?) ∧
    (write_bytes_hex [0, 0, 0, 0, 0, 0] 1 [1, 2] = none ↔
      ¬(0 ≤ (1 : Int) ∧ (1 : Int) < ([0, 0, 0, 0, 0, 0] : List Nat).length ∧
        (1 : Int) + ([1, 2] : List Nat).length < ([0, 0, 0, 0, 0, 0] : List Nat).length)) ∧
    (∀ out, write_bytes_hex [0, 0, 0, 0, 0, 0] 1 [1, 2] = some out →
      ∃ bs, fromhex [1, 2] = some bs ∧ bs.length = ([1, 2] : List Nat).length / 2 ∧
        ∀ i, i < bs.length → out[(1 : Int).toNat + i]? = bs[i]?) :=
  write_bytes_amended [0, 0, 0, 0, 0, 0] 1 [7] [1, 2] (by decide)

theorem readMem_writeMem_self (m : Mem) (a v : Nat) :
    readMem (writeMem m a v) a = v % 256 := by
  simp [readMem, writeMem]

theorem readMem_writeMem_ne (m : Mem) (a b v : Nat) (h : b ≠ a) :
    readMem (writeMem m a v) b = readMem m b := by
  simp [readMem, writeMem, h]

/-- C6: a JSR at address p (with p + 3 inside the address space) pushes the
word p + 2; an RTS executed later from any state with the same stack pointer
and the two pushed stack bytes intact sets PC to p + 3, the byte after the
JSR's last operand byte. -/
theorem jsr_rts_roundtrip (s : CPU)
    (hret : s.pc + 3 ≤ 0xffff) (hsp : s.sp < 256)
    (hop : readMem s.mem s.pc = 0x20) :
    ∀ s1 r1, step s = some (s1, r1) →
    ∀ s2 : CPU, s2.sp = s1.sp →
      readMem s2.mem (0x0100 + s.sp) = readMem s1.mem (0x0100 + s.sp) →
      readMem s2.mem (0x0100 + (s.sp + 255) % 256) =
        readMem s1.mem (0x0100 + (s.sp + 255) % 256) →
      readMem s2.mem s2.pc = 0x60 →
      ∀ s3 r3, step s2 = some (s3, r3) → s3.pc = s.pc + 3 := by
  have hdec1 : decode (readMem s.mem s.pc) = .jsr := by rw [hop]; rfl
  intro s1 r1 hstep1 s2 hsp2 hmHi hmLo hop2 s3 r3 hstep2
  have hdec2 : decode (readMem s2.mem s2.pc) = .rts := by rw [hop2]; rfl
  simp only [step, hdec1, execInstr, jsr, push_byte, Option.map_some, Option.map,
    Option.some.injEq] at hstep1
  simp only [step, hdec2, execInstr, rts, pull_byte, Option.map_some, Option.map,
    Option.some.injEq] at hstep2
  split at hstep1 <;> split at hstep2 <;>
  · injection hstep1 with e1 e2
    injection hstep2 with e3 e4
    subst e1 e3
    dsimp only at hsp2 hmHi hmLo ⊢
    rw [show (s2.sp + 1) % 256 = (s.sp + 255) % 256 by rw [hsp2]; omega]
    rw [show ((s.sp + 255) % 256 + 1) % 256 = s.sp % 256 by omega,
        Nat.mod_eq_of_lt hsp]
    rw [hmLo, hmHi]
    rw [readMem_writeMem_self]
    rw [readMem_writeMem_ne _ _ _ _ (by omega)]
    rw [readMem_writeMem_self]
    omega

/-- Witness for C6 at a concrete program: JSR 0x0309 at 0x0300 followed by the
RTS at 0x0309 returns to 0x0303. -/
theorem jsr_rts_roundtrip_witness :
    c6w.pc + 3 ≤ 0xffff ∧ c6w.sp < 256 ∧ readMem c6w.mem c6w.pc = 0x20 ∧
    readMem c6s1.mem c6s1.pc = 0x60 ∧ c6s3.pc = c6w.pc + 3 :=
  ⟨by decide, by decide, by decide, by decide,
   jsr_rts_roundtrip c6w (by decide) (by decide) (by decide) c6s1 .normal rfl
     c6s1 rfl rfl rfl (by decide) c6s3 .normal rfl⟩

theorem getBit_setFlag_ne (st i v j : Nat) (hv : v ≤ 1) (hj : j ≠ i) :
    getBit (setFlag st i v) j = getBit st j := by
  rw [getBit_setFlag _ _ _ _ hv, if_neg hj]

theorem getBit_setBit_ne (st i j : Nat) (hj : j ≠ i) :
    getBit (setBit st i) j = getBit st j := by
  rw [getBit_setBit, if_neg hj]

theorem getBit_clearBit_ne (st i j : Nat) (hj : j ≠ i) :
    getBit (clearBit st i) j = getBit st j := by
  rw [getBit_clearBit, if_neg hj]

theorem getBit_update_zero (st v j : Nat) (hj : j ≠ 1) :
    getBit (update_zero_flag st v) j = getBit st j := by
  unfold update_zero_flag
  exact getBit_setFlag_ne _ _ _ _ (by split <;> omega) hj

theorem getBit_update_neg (st v j : Nat) (hj : j ≠ 7) :
    getBit (update_negative_flag st v) j = getBit st j := by
  unfold update_negative_flag
  exact getBit_setFlag_ne _ _ _ _ (getBit_le_one _ _) hj

theorem getBit_update_overflow (st a o r j : Nat) (hj : j ≠ 6) :
    getBit (update_overflow_flag st a o r) j = getBit st j := by
  unfold update_overflow_flag
  exact getBit_setFlag_ne _ _ _ _ (overflow_bit_le_one _ _ _) hj

theorem ite_bump_a {c : Prop} [Decidable c] (a x y pc sp st cy m cy2) :
    (if c then CPU.mk a x y pc sp st cy2 m else CPU.mk a x y pc sp st cy m).a = a := by
  split <;> rfl

theorem ite_bump_x {c : Prop} [Decidable c] (a x y pc sp st cy m cy2) :
    (if c then CPU.mk a x y pc sp st cy2 m else CPU.mk a x y pc sp st cy m).x = x := by
  split <;> rfl

theorem ite_bump_y {c : Prop} [Decidable c] (a x y pc sp st cy m cy2) :
    (if c then CPU.mk a x y pc sp st cy2 m else CPU.mk a x y pc sp st cy m).y = y := by
  split <;> rfl

theorem ite_bump_sp {c : Prop} [Decidable c] (a x y pc sp st cy m cy2) :
    (if c then CPU.mk a x y pc sp st cy2 m else CPU.mk a x y pc sp st cy m).sp = sp := by
  split <;> rfl

theorem ite_bump_status {c : Prop} [Decidable c] (a x y pc sp st cy m cy2) :
    (if c then CPU.mk a x y pc sp st cy2 m else CPU.mk a x y pc sp st cy m).status = st := by
  split <;> rfl


theorem bit_decomposition (n i : Nat) :
    n = n % 2 ^ i + getBit n i * 2 ^ i + n / 2 ^ (i + 1) * 2 ^ (i + 1) := by
  unfold getBit
  have h1 := Nat.div_add_mod n (2 ^ i)
  have h2 := Nat.div_add_mod (n / 2 ^ i) 2
  have h3 : n / 2 ^ i / 2 = n / 2 ^ (i + 1) := by
    rw [Nat.div_div_eq_div_mul, pow_succ]
  have h4 : n / 2 ^ i = 2 * (n / 2 ^ (i + 1)) + n / 2 ^ i % 2 := by
    rw [← h3]
    omega
  calc n = 2 ^ i * (n / 2 ^ i) + n % 2 ^ i := by omega
  _ = 2 ^ i * (2 * (n / 2 ^ (i + 1)) + n / 2 ^ i % 2) + n % 2 ^ i := by rw [← h4]
  _ = n % 2 ^ i + n / 2 ^ i % 2 * 2 ^ i + n / 2 ^ (i + 1) * 2 ^ (i + 1) := by
    rw [pow_succ]
    ring

theorem inv_branch (fi fv : Nat) (s : CPU) (h : Inv s) : Inv (branch fi fv s) := by
  obtain ⟨⟨ha, hx, hy, hsp⟩, hB⟩ := h
  unfold branch
  split
  · dsimp only
    split <;> split <;> exact ⟨⟨ha, hx, hy, hsp⟩, hB⟩
  · exact ⟨⟨ha, hx, hy, hsp⟩, hB⟩

theorem inv_jmp_absolute (s : CPU) (h : Inv s) : Inv (jmp_absolute s) := h

theorem inv_jmp_indirect (s : CPU) (h : Inv s) : Inv (jmp_indirect s) := h

theorem inv_jsr (s : CPU) (h : Inv s) : Inv (jsr s) := by
  obtain ⟨⟨ha, hx, hy, hsp⟩, hB⟩ := h
  unfold jsr push_byte
  simp only
  exact ⟨⟨ha, hx, hy, Nat.mod_lt _ (by norm_num)⟩, hB⟩

theorem inv_nop (s : CPU) (h : Inv s) : Inv (nop s) := h

theorem inv_rts (s : CPU) (h : Inv s) : Inv (rts s) := by
  obtain ⟨⟨ha, hx, hy, hsp⟩, hB⟩ := h
  unfold rts pull_byte
  simp only
  exact ⟨⟨ha, hx, hy, Nat.mod_lt _ (by norm_num)⟩, hB⟩

theorem inv_clc (s : CPU) (h : Inv s) : Inv (clc s) := by
  obtain ⟨hr, hB⟩ := h
  exact ⟨hr, by unfold clc; simp only; rw [getBit_clearBit_ne _ _ _ (by omega)]; exact hB⟩

theorem inv_sec (s : CPU) (h : Inv s) : Inv (sec s) := by
  obtain ⟨hr, hB⟩ := h
  exact ⟨hr, by unfold sec; simp only; rw [getBit_setBit_ne _ _ _ (by omega)]; exact hB⟩

theorem inv_cli (s : CPU) (h : Inv s) : Inv (cli s) := by
  obtain ⟨hr, hB⟩ := h
  exact ⟨hr, by unfold cli; simp only; rw [getBit_clearBit_ne _ _ _ (by omega)]; exact hB⟩

theorem inv_sei (s : CPU) (h : Inv s) : Inv (sei s) := by
  obtain ⟨hr, hB⟩ := h
  exact ⟨hr, by unfold sei; simp only; rw [getBit_setBit_ne _ _ _ (by omega)]; exact hB⟩

theorem inv_cld (s : CPU) (h : Inv s) : Inv (cld s) := by
  obtain ⟨hr, hB⟩ := h
  exact ⟨hr, by unfold cld; simp only; rw [getBit_clearBit_ne _ _ _ (by omega)]; exact hB⟩

theorem inv_sed (s : CPU) (h : Inv s) : Inv (sed s) := by
  obtain ⟨hr, hB⟩ := h
  exact ⟨hr, by unfold sed; simp only; rw [getBit_setBit_ne _ _ _ (by omega)]; exact hB⟩

theorem inv_clv (s : CPU) (h : Inv s) : Inv (clv s) := by
  obtain ⟨hr, hB⟩ := h
  exact ⟨hr, by unfold clv; simp only; rw [getBit_clearBit_ne _ _ _ (by omega)]; exact hB⟩

theorem inv_tax (s : CPU) (h : Inv s) : Inv (tax s) := by
  obtain ⟨⟨ha, hx, hy, hsp⟩, hB⟩ := h
  refine ⟨⟨ha, ha, hy, hsp⟩, ?_⟩
  unfold tax
  simp only
  rw [getBit_update_neg _ _ _ (by omega), getBit_update_zero _ _ _ (by omega)]
  exact hB

theorem inv_tay (s : CPU) (h : Inv s) : Inv (tay s) := by
  obtain ⟨⟨ha, hx, hy, hsp⟩, hB⟩ := h
  refine ⟨⟨ha, hx, ha, hsp⟩, ?_⟩
  unfold tay
  simp only
  rw [getBit_update_neg _ _ _ (by omega), getBit_update_zero _ _ _ (by omega)]
  exact hB

theorem inv_tsx (s : CPU) (h : Inv s) : Inv (tsx s) := by
  obtain ⟨⟨ha, hx, hy, hsp⟩, hB⟩ := h
  refine ⟨⟨ha, hsp, hy, hsp⟩, ?_⟩
  unfold tsx
  simp only
  rw [getBit_update_neg _ _ _ (by omega), getBit_update_zero _ _ _ (by omega)]
  exact hB

theorem inv_txa (s : CPU) (h : Inv s) : Inv (txa s) := by
  obtain ⟨⟨ha, hx, hy, hsp⟩, hB⟩ := h
  refine ⟨⟨hx, hx, hy, hsp⟩, ?_⟩
  unfold txa
  simp only
  rw [getBit_update_neg _ _ _ (by omega), getBit_update_zero _ _ _ (by omega)]
  exact hB

theorem inv_txs (s : CPU) (h : Inv s) : Inv (txs s) := by
  obtain ⟨⟨ha, hx, hy, hsp⟩, hB⟩ := h
  exact ⟨⟨ha, hx, hy, hx⟩, hB⟩

theorem inv_tya (s : CPU) (h : Inv s) : Inv (tya s) := by
  obtain ⟨⟨ha, hx, hy, hsp⟩, hB⟩ := h
  refine ⟨⟨hy, hx, hy, hsp⟩, ?_⟩
  unfold tya
  simp only
  rw [getBit_update_neg _ _ _ (by omega), getBit_update_zero _ _ _ (by omega)]
  exact hB

theorem inv_pha (s : CPU) (h : Inv s) : Inv (pha s) := by
  obtain ⟨⟨ha, hx, hy, hsp⟩, hB⟩ := h
  unfold pha push_byte
  simp only
  exact ⟨⟨ha, hx, hy, Nat.mod_lt _ (by norm_num)⟩, hB⟩

theorem inv_php (s : CPU) (h : Inv s) : Inv (php s) := by
  obtain ⟨⟨ha, hx, hy, hsp⟩, hB⟩ := h
  unfold php push_byte
  simp only
  exact ⟨⟨ha, hx, hy, Nat.mod_lt _ (by norm_num)⟩, hB⟩

theorem inv_pla (s : CPU) (h : Inv s) : Inv (pla s) := by
  obtain ⟨⟨ha, hx, hy, hsp⟩, hB⟩ := h
  refine ⟨⟨readMem_lt _ _, hx, hy, Nat.mod_lt _ (by norm_num)⟩, ?_⟩
  unfold pla pull_byte
  simp only
  rw [getBit_update_zero _ _ _ (by omega), getBit_update_neg _ _ _ (by omega)]
  exact hB

theorem inv_plp (s : CPU) (h : Inv s) : Inv (plp s) := by
  obtain ⟨⟨ha, hx, hy, hsp⟩, hB⟩ := h
  refine ⟨⟨ha, hx, hy, Nat.mod_lt _ (by norm_num)⟩, ?_⟩
  unfold plp pull_byte
  simp only
  rw [getBit_clearBit]
  simp

theorem inv_dex (s : CPU) (h : Inv s) : Inv (dex s) := by
  obtain ⟨⟨ha, hx, hy, hsp⟩, hB⟩ := h
  refine ⟨⟨ha, Nat.mod_lt _ (by norm_num), hy, hsp⟩, ?_⟩
  unfold dex
  simp only
  rw [getBit_update_neg _ _ _ (by omega), getBit_update_zero _ _ _ (by omega)]
  exact hB

theorem inv_dey (s : CPU) (h : Inv s) : Inv (dey s) := by
  obtain ⟨⟨ha, hx, hy, hsp⟩, hB⟩ := h
  refine ⟨⟨ha, hx, Nat.mod_lt _ (by norm_num), hsp⟩, ?_⟩
  unfold dey
  simp only
  rw [getBit_update_neg _ _ _ (by omega), getBit_update_zero _ _ _ (by omega)]
  exact hB

theorem inv_inx (s : CPU) (h : Inv s) : Inv (inx s) := by
  obtain ⟨⟨ha, hx, hy, hsp⟩, hB⟩ := h
  refine ⟨⟨ha, Nat.mod_lt _ (by norm_num), hy, hsp⟩, ?_⟩
  unfold inx
  simp only
  rw [getBit_update_neg _ _ _ (by omega), getBit_update_zero _ _ _ (by omega)]
  exact hB

theorem inv_iny (s : CPU) (h : Inv s) : Inv (iny s) := by
  obtain ⟨⟨ha, hx, hy, hsp⟩, hB⟩ := h
  refine ⟨⟨ha, hx, Nat.mod_lt _ (by norm_num), hsp⟩, ?_⟩
  unfold iny
  simp only
  rw [getBit_update_neg _ _ _ (by omega), getBit_update_zero _ _ _ (by omega)]
  exact hB

theorem inv_lda (m : AddressingMode) (s : CPU) (h : Inv s) : Inv (lda m s) := by
  obtain ⟨⟨ha, hx, hy, hsp⟩, hB⟩ := h
  unfold lda
  refine ⟨⟨?_, ?_, ?_, ?_⟩, ?_⟩
  · simp only [ite_bump_a]
    exact readMem_lt _ _
  · simp only [ite_bump_x, resolve_x]
    exact hx
  · simp only [ite_bump_y, resolve_y]
    exact hy
  · simp only [ite_bump_sp, resolve_sp]
    exact hsp
  · simp only [ite_bump_status, resolve_status]
    rw [getBit_update_neg _ _ _ (by omega), getBit_update_zero _ _ _ (by omega)]
    exact hB

theorem inv_ldx (m : AddressingMode) (s : CPU) (h : Inv s) : Inv (ldx m s) := by
  obtain ⟨⟨ha, hx, hy, hsp⟩, hB⟩ := h
  unfold ldx
  refine ⟨⟨?_, ?_, ?_, ?_⟩, ?_⟩
  · simp only [ite_bump_a, resolve_a]
    exact ha
  · simp only [ite_bump_x]
    exact readMem_lt _ _
  · simp only [ite_bump_y, resolve_y]
    exact hy
  · simp only [ite_bump_sp, resolve_sp]
    exact hsp
  · simp only [ite_bump_status, resolve_status]
    rw [getBit_update_neg _ _ _ (by omega), getBit_update_zero _ _ _ (by omega)]
    exact hB

theorem inv_ldy (m : AddressingMode) (s : CPU) (h : Inv s) : Inv (ldy m s) := by
  obtain ⟨⟨ha, hx, hy, hsp⟩, hB⟩ := h
  unfold ldy
  refine ⟨⟨?_, ?_, ?_, ?_⟩, ?_⟩
  · simp only [ite_bump_a, resolve_a]
    exact ha
  · simp only [ite_bump_x, resolve_x]
    exact hx
  · simp only [ite_bump_y]
    exact readMem_lt _ _
  · simp only [ite_bump_sp, resolve_sp]
    exact hsp
  · simp only [ite_bump_status, resolve_status]
    rw [getBit_update_neg _ _ _ (by omega), getBit_update_zero _ _ _ (by omega)]
    exact hB

theorem inv_sta (m : AddressingMode) (s : CPU) (h : Inv s) : Inv (sta m s) := by
  obtain ⟨⟨ha, hx, hy, hsp⟩, hB⟩ := h
  unfold sta
  refine ⟨⟨?_, ?_, ?_, ?_⟩, ?_⟩
  · simp only [resolve_a]
    exact ha
  · simp only [resolve_x]
    exact hx
  · simp only [resolve_y]
    exact hy
  · simp only [resolve_sp]
    exact hsp
  · simp only [resolve_status]
    exact hB

theorem inv_stx (m : AddressingMode) (s : CPU) (h : Inv s) : Inv (stx m s) := by
  obtain ⟨⟨ha, hx, hy, hsp⟩, hB⟩ := h
  unfold stx
  refine ⟨⟨?_, ?_, ?_, ?_⟩, ?_⟩
  · simp only [resolve_a]
    exact ha
  · simp only [resolve_x]
    exact hx
  · simp only [resolve_y]
    exact hy
  · simp only [resolve_sp]
    exact hsp
  · simp only [resolve_status]
    exact hB

theorem inv_sty (m : AddressingMode) (s : CPU) (h : Inv s) : Inv (sty m s) := by
  obtain ⟨⟨ha, hx, hy, hsp⟩, hB⟩ := h
  unfold sty
  refine ⟨⟨?_, ?_, ?_, ?_⟩, ?_⟩
  · simp only [resolve_a]
    exact ha
  · simp only [resolve_x]
    exact hx
  · simp only [resolve_y]
    exact hy
  · simp only [resolve_sp]
    exact hsp
  · simp only [resolve_status]
    exact hB

theorem inv_dec (m : AddressingMode) (s : CPU) (h : Inv s) : Inv (dec m s) := by
  obtain ⟨⟨ha, hx, hy, hsp⟩, hB⟩ := h
  unfold dec
  refine ⟨⟨?_, ?_, ?_, ?_⟩, ?_⟩
  · simp only [resolve_a]
    exact ha
  · simp only [resolve_x]
    exact hx
  · simp only [resolve_y]
    exact hy
  · simp only [resolve_sp]
    exact hsp
  · simp only [resolve_status]
    rw [getBit_update_neg _ _ _ (by omega), getBit_update_zero _ _ _ (by omega)]
    exact hB

theorem inv_inc (m : AddressingMode) (s : CPU) (h : Inv s) : Inv (inc m s) := by
  obtain ⟨⟨ha, hx, hy, hsp⟩, hB⟩ := h
  unfold inc
  refine ⟨⟨?_, ?_, ?_, ?_⟩, ?_⟩
  · simp only [resolve_a]
    exact ha
  · simp only [resolve_x]
    exact hx
  · simp only [resolve_y]
    exact hy
  · simp only [resolve_sp]
    exact hsp
  · simp only [resolve_status]
    rw [getBit_update_neg _ _ _ (by omega), getBit_update_zero _ _ _ (by omega)]
    exact hB

theorem inv_asl (m : Option AddressingMode) (s : CPU) (h : Inv s) : Inv (asl m s) := by
  obtain ⟨⟨ha, hx, hy, hsp⟩, hB⟩ := h
  unfold asl
  cases m with
  | some m =>
      refine ⟨⟨?_, ?_, ?_, ?_⟩, ?_⟩
      · simp only [resolve_a]
        exact ha
      · simp only [resolve_x]
        exact hx
      · simp only [resolve_y]
        exact hy
      · simp only [resolve_sp]
        exact hsp
      · simp only [resolve_status]
        rw [getBit_update_neg _ _ _ (by omega), getBit_update_zero _ _ _ (by omega),
            getBit_setFlag_ne _ _ _ _ (getBit_le_one _ _) (by omega)]
        exact hB
  | none =>
      refine ⟨⟨?_, ?_, ?_, ?_⟩, ?_⟩
      · simp only
        exact Nat.mod_lt _ (by norm_num)
      · exact hx
      · exact hy
      · exact hsp
      · simp only
        rw [getBit_update_neg _ _ _ (by omega), getBit_update_zero _ _ _ (by omega),
            getBit_setFlag_ne _ _ _ _ (getBit_le_one _ _) (by omega)]
        exact hB

theorem inv_lsr (m : Option AddressingMode) (s : CPU) (h : Inv s) : Inv (lsr m s) := by
  obtain ⟨⟨ha, hx, hy, hsp⟩, hB⟩ := h
  unfold lsr
  cases m with
  | some m =>
      refine ⟨⟨?_, ?_, ?_, ?_⟩, ?_⟩
      · simp only [resolve_a]
        exact ha
      · simp only [resolve_x]
        exact hx
      · simp only [resolve_y]
        exact hy
      · simp only [resolve_sp]
        exact hsp
      · simp only [resolve_status]
        rw [getBit_update_neg _ _ _ (by omega), getBit_update_zero _ _ _ (by omega),
            getBit_setFlag_ne _ _ _ _ (by omega) (by omega)]
        exact hB
  | none =>
      refine ⟨⟨?_, ?_, ?_, ?_⟩, ?_⟩
      · simp only
        exact lt_of_le_of_lt (Nat.div_le_self _ _) ha
      · exact hx
      · exact hy
      · exact hsp
      · simp only
        rw [getBit_update_neg _ _ _ (by omega), getBit_update_zero _ _ _ (by omega),
            getBit_setFlag_ne _ _ _ _ (by omega) (by omega)]
        exact hB

theorem inv_rol (m : Option AddressingMode) (s : CPU) (h : Inv s) : Inv (rol m s) := by
  obtain ⟨⟨ha, hx, hy, hsp⟩, hB⟩ := h
  unfold rol
  cases m with
  | some m =>
      refine ⟨⟨?_, ?_, ?_, ?_⟩, ?_⟩
      · simp only [resolve_a]
        exact ha
      · simp only [resolve_x]
        exact hx
      · simp only [resolve_y]
        exact hy
      · simp only [resolve_sp]
        exact hsp
      · simp only [resolve_status]
        rw [getBit_update_neg _ _ _ (by omega), getBit_update_zero _ _ _ (by omega),
            getBit_setFlag_ne _ _ _ _ (getBit_le_one _ _) (by omega)]
        exact hB
  | none =>
      refine ⟨⟨?_, ?_, ?_, ?_⟩, ?_⟩
      · simp only
        exact Nat.mod_lt _ (by norm_num)
      · exact hx
      · exact hy
      · exact hsp
      · simp only
        rw [getBit_update_neg _ _ _ (by omega), getBit_update_zero _ _ _ (by omega),
            getBit_setFlag_ne _ _ _ _ (getBit_le_one _ _) (by omega)]
        exact hB

theorem inv_ror (m : Option AddressingMode) (s : CPU) (h : Inv s) : Inv (ror m s) := by
  obtain ⟨⟨ha, hx, hy, hsp⟩, hB⟩ := h
  have hbuf := getBit_le_one s.status 0
  unfold ror
  cases m with
  | some m =>
      refine ⟨⟨?_, ?_, ?_, ?_⟩, ?_⟩
      · simp only [resolve_a]
        exact ha
      · simp only [resolve_x]
        exact hx
      · simp only [resolve_y]
        exact hy
      · simp only [resolve_sp]
        exact hsp
      · simp only [resolve_status]
        rw [getBit_update_neg _ _ _ (by omega), getBit_update_zero _ _ _ (by omega),
            getBit_setFlag_ne _ _ _ _ (by omega) (by omega)]
        exact hB
  | none =>
      refine ⟨⟨?_, ?_, ?_, ?_⟩, ?_⟩
      · simp only
        omega
      · exact hx
      · exact hy
      · exact hsp
      · simp only
        rw [getBit_update_neg _ _ _ (by omega), getBit_update_zero _ _ _ (by omega),
            getBit_setFlag_ne _ _ _ _ (by omega) (by omega)]
        exact hB

theorem inv_and_op (m : AddressingMode) (s : CPU) (h : Inv s) : Inv (and_op m s) := by
  obtain ⟨⟨ha, hx, hy, hsp⟩, hB⟩ := h
  unfold and_op
  refine ⟨⟨?_, ?_, ?_, ?_⟩, ?_⟩
  · simp only [ite_bump_a, resolve_a]
    exact lt_of_le_of_lt Nat.and_le_left ha
  · simp only [ite_bump_x, resolve_x]
    exact hx
  · simp only [ite_bump_y, resolve_y]
    exact hy
  · simp only [ite_bump_sp, resolve_sp]
    exact hsp
  · simp only [ite_bump_status, resolve_status]
    rw [getBit_update_neg _ _ _ (by omega), getBit_update_zero _ _ _ (by omega)]
    exact hB

theorem inv_eor (m : AddressingMode) (s : CPU) (h : Inv s) : Inv (eor m s) := by
  obtain ⟨⟨ha, hx, hy, hsp⟩, hB⟩ := h
  unfold eor
  refine ⟨⟨?_, ?_, ?_, ?_⟩, ?_⟩
  · simp only [ite_bump_a, resolve_a]
    exact Nat.xor_lt_two_pow (n := 8) ha (readMem_lt _ _)
  · simp only [ite_bump_x, resolve_x]
    exact hx
  · simp only [ite_bump_y, resolve_y]
    exact hy
  · simp only [ite_bump_sp, resolve_sp]
    exact hsp
  · simp only [ite_bump_status, resolve_status]
    rw [getBit_update_neg _ _ _ (by omega), getBit_update_zero _ _ _ (by omega)]
    exact hB

theorem inv_ora (m : AddressingMode) (s : CPU) (h : Inv s) : Inv (ora m s) := by
  obtain ⟨⟨ha, hx, hy, hsp⟩, hB⟩ := h
  unfold ora
  refine ⟨⟨?_, ?_, ?_, ?_⟩, ?_⟩
  · simp only [ite_bump_a, resolve_a]
    exact Nat.or_lt_two_pow (n := 8) ha (readMem_lt _ _)
  · simp only [ite_bump_x, resolve_x]
    exact hx
  · simp only [ite_bump_y, resolve_y]
    exact hy
  · simp only [ite_bump_sp, resolve_sp]
    exact hsp
  · simp only [ite_bump_status, resolve_status]
    rw [getBit_update_neg _ _ _ (by omega), getBit_update_zero _ _ _ (by omega)]
    exact hB

theorem bit_status_B4 (st b7 b6 z : Nat) (h7 : b7 ≤ 1) (h6 : b6 ≤ 1) (hz : z ≤ 1)
    (hB : getBit st 4 = 0) :
    getBit (clearBit (clearBit (clearBit st 7) 6) 1 + b7 * 2 ^ 7 + b6 * 2 ^ 6 + z * 2) 4 = 0 := by
  unfold getBit clearBit at *
  norm_num at *
  omega

theorem inv_bit (m : AddressingMode) (s : CPU) (h : Inv s) : Inv (bit m s) := by
  obtain ⟨⟨ha, hx, hy, hsp⟩, hB⟩ := h
  unfold bit
  refine ⟨⟨?_, ?_, ?_, ?_⟩, ?_⟩
  · simp only [resolve_a]
    exact ha
  · simp only [resolve_x]
    exact hx
  · simp only [resolve_y]
    exact hy
  · simp only [resolve_sp]
    exact hsp
  · simp only [resolve_status]
    exact bit_status_B4 _ _ _ _ (getBit_le_one _ _) (getBit_le_one _ _)
      (by split <;> omega) hB

theorem inv_compare_logic (v : Nat) (m : AddressingMode) (s : CPU) (h : Inv s) :
    Inv (compare_logic v m s) := by
  obtain ⟨⟨ha, hx, hy, hsp⟩, hB⟩ := h
  unfold compare_logic
  refine ⟨⟨?_, ?_, ?_, ?_⟩, ?_⟩
  · simp only [ite_bump_a, resolve_a]
    exact ha
  · simp only [ite_bump_x, resolve_x]
    exact hx
  · simp only [ite_bump_y, resolve_y]
    exact hy
  · simp only [ite_bump_sp, resolve_sp]
    exact hsp
  · simp only [ite_bump_status, resolve_status]
    rw [getBit_update_neg _ _ _ (by omega), getBit_update_zero _ _ _ (by omega),
        getBit_setFlag_ne _ _ _ _ (by omega) (by omega)]
    exact hB

theorem inv_compare (r : Reg) (m : AddressingMode) (s : CPU) (h : Inv s) :
    Inv (compare r m s) := inv_compare_logic _ m s h

theorem dec_to_bcd_lt {d : Int} {b : Nat} (hb : dec_to_bcd d = some b) : b < 256 := by
  unfold dec_to_bcd at hb
  split at hb
  · exact absurd hb (by simp)
  · rename_i hc
    injection hb with hb
    subst hb
    push_neg at hc
    omega

theorem inv_adc (m : AddressingMode) (s s' : CPU) (hx : adc m s = some s') (h : Inv s) :
    Inv s' := by
  obtain ⟨⟨ha, hxx, hy, hsp⟩, hB⟩ := h
  have hcin := getBit_le_one (resolve_address m s).1.status 0
  have hrd := readMem_lt (resolve_address m s).1.mem (resolve_address m s).2.1
  simp only [adc] at hx
  by_cases hD : getBit (resolve_address m s).1.status 3 = 0
  · rw [if_pos hD] at hx
    simp only [Option.map, Option.some.injEq] at hx
    subst hx
    refine ⟨⟨?_, ?_, ?_, ?_⟩, ?_⟩
    · simp only [ite_bump_a]
      exact Nat.mod_lt _ (by norm_num)
    · simp only [ite_bump_x, resolve_x]
      exact hxx
    · simp only [ite_bump_y, resolve_y]
      exact hy
    · simp only [ite_bump_sp, resolve_sp]
      exact hsp
    · simp only [ite_bump_status, resolve_status, resolve_a]
      rw [getBit_update_overflow _ _ _ _ _ (by omega),
          getBit_update_neg _ _ _ (by omega), getBit_update_zero _ _ _ (by omega),
          getBit_setFlag_ne _ _ _ _
            (by have h9 := getBit_le_one s.status 0; omega) (by omega)]
      exact hB
  · rw [if_neg hD] at hx
    generalize hsum : (resolve_address m s).1.a % 16 + (resolve_address m s).1.a / 16 * 10 +
        (readMem (resolve_address m s).1.mem (resolve_address m s).2.1 % 16 +
         readMem (resolve_address m s).1.mem (resolve_address m s).2.1 / 16 * 10) +
        getBit (resolve_address m s).1.status 0 = SUM at hx
    rcases hdb : dec_to_bcd ((((if (if SUM ≥ 100 then 1 else 0) = 1 then SUM - 100
        else SUM) : Nat) : Int)) with _ | b
    · rw [hdb] at hx
      exact Option.noConfusion hx
    · rw [hdb] at hx
      simp only [Option.map, Option.some.injEq] at hx
      subst hx
      refine ⟨⟨?_, ?_, ?_, ?_⟩, ?_⟩
      · simp only [ite_bump_a]
        exact dec_to_bcd_lt hdb
      · simp only [ite_bump_x, resolve_x]
        exact hxx
      · simp only [ite_bump_y, resolve_y]
        exact hy
      · simp only [ite_bump_sp, resolve_sp]
        exact hsp
      · simp only [ite_bump_status, resolve_status]
        rw [getBit_update_overflow _ _ _ _ _ (by omega),
            getBit_update_neg _ _ _ (by omega), getBit_update_zero _ _ _ (by omega),
            getBit_setFlag_ne _ _ _ _ (by split <;> omega) (by omega)]
        exact hB

theorem inv_sbc (m : AddressingMode) (s s' : CPU) (hx : sbc m s = some s') (h : Inv s) :
    Inv s' := by
  obtain ⟨⟨ha, hxx, hy, hsp⟩, hB⟩ := h
  have hcin := getBit_le_one (resolve_address m s).1.status 0
  have hrd := readMem_lt (resolve_address m s).1.mem (resolve_address m s).2.1
  simp only [sbc] at hx
  by_cases hD : getBit (resolve_address m s).1.status 3 = 0
  · rw [if_pos hD] at hx
    simp only [Option.map, Option.some.injEq] at hx
    subst hx
    refine ⟨⟨?_, ?_, ?_, ?_⟩, ?_⟩
    · simp only [ite_bump_a]
      exact Nat.mod_lt _ (by norm_num)
    · simp only [ite_bump_x, resolve_x]
      exact hxx
    · simp only [ite_bump_y, resolve_y]
      exact hy
    · simp only [ite_bump_sp, resolve_sp]
      exact hsp
    · simp only [ite_bump_status, resolve_status, resolve_a]
      rw [getBit_update_overflow _ _ _ _ _ (by omega),
          getBit_update_neg _ _ _ (by omega), getBit_update_zero _ _ _ (by omega),
          getBit_setFlag_ne _ _ _ _
            (by have h9 := getBit_le_one s.status 0; omega) (by omega)]
      exact hB
  · rw [if_neg hD] at hx
    generalize hsum : ((((resolve_address m s).1.a % 16 + (resolve_address m s).1.a / 16 * 10 : Nat) : Int) -
        ((readMem (resolve_address m s).1.mem (resolve_address m s).2.1 % 16 +
          readMem (resolve_address m s).1.mem (resolve_address m s).2.1 / 16 * 10 : Nat) : Int) +
        ((getBit (resolve_address m s).1.status 0 : Nat) : Int) - 1) = ISUM at hx
    rcases hdb : dec_to_bcd (if (if ISUM ≥ 0 then 1 else 0) = 1 then ISUM else ISUM + 100)
      with _ | b
    · rw [hdb] at hx
      exact Option.noConfusion hx
    · rw [hdb] at hx
      simp only [Option.map, Option.some.injEq] at hx
      subst hx
      refine ⟨⟨?_, ?_, ?_, ?_⟩, ?_⟩
      · simp only [ite_bump_a]
        exact dec_to_bcd_lt hdb
      · simp only [ite_bump_x, resolve_x]
        exact hxx
      · simp only [ite_bump_y, resolve_y]
        exact hy
      · simp only [ite_bump_sp, resolve_sp]
        exact hsp
      · simp only [ite_bump_status, resolve_status]
        rw [getBit_update_overflow _ _ _ _ _ (by omega),
            getBit_update_neg _ _ _ (by omega), getBit_update_zero _ _ _ (by omega),
            getBit_setFlag_ne _ _ _ _ (by split <;> omega) (by omega)]
        exact hB

theorem inv_brk (s : CPU) (h : Inv s) :
    RegBytes (brk s) ∧ getBit (brk s).status 2 = 1 ∧ getBit (brk s).status 4 = 1 := by
  obtain ⟨⟨ha, hxx, hy, hsp⟩, hB⟩ := h
  unfold brk interrupt push_byte
  rw [if_neg (by simp)]
  rw [if_pos rfl]
  simp only
  refine ⟨⟨ha, hxx, hy, Nat.mod_lt _ (by norm_num)⟩, ?_, ?_⟩
  · rw [getBit_setBit]
    simp
  · rw [getBit_setBit_ne _ _ _ (by omega), getBit_setBit]
    simp

theorem inv_irq (s : CPU) (h : Inv s) : Inv (irq s) := by
  obtain ⟨⟨ha, hxx, hy, hsp⟩, hB⟩ := h
  unfold irq interrupt push_byte
  by_cases hI : getBit s.status 2 = 1
  · rw [if_pos ⟨rfl, hI⟩]
    exact ⟨⟨ha, hxx, hy, hsp⟩, hB⟩
  · rw [if_neg (by intro hc; exact hI hc.2)]
    rw [if_neg (by simp)]
    simp only
    refine ⟨⟨ha, hxx, hy, Nat.mod_lt _ (by norm_num)⟩, ?_⟩
    rw [getBit_setBit_ne _ _ _ (by omega)]
    exact hB

theorem inv_nmi (s : CPU) (h : Inv s) : Inv (nmi s) := by
  obtain ⟨⟨ha, hxx, hy, hsp⟩, hB⟩ := h
  unfold nmi interrupt push_byte
  rw [if_neg (by intro hc; exact absurd hc.1 (by simp))]
  rw [if_neg (by simp)]
  simp only
  refine ⟨⟨ha, hxx, hy, Nat.mod_lt _ (by norm_num)⟩, ?_⟩
  rw [getBit_setBit_ne _ _ _ (by omega)]
  exact hB

theorem execInstr_inv (i : Instr) (s s' : CPU) (hx : execInstr i s = some s')
    (h : Inv s) :
    RegBytes s' ∧ (i ≠ Instr.brk → getBit s'.status 4 = 0) ∧
    (i = Instr.brk → getBit s'.status 2 = 1 ∧ getBit s'.status 4 = 1) := by
  cases i
  case branch fi fv =>
    simp only [execInstr, Option.some.injEq] at hx
    subst hx
    obtain ⟨hr, hb⟩ := inv_branch fi fv s h
    exact ⟨hr, fun _ => hb, nofun⟩
  case brk =>
    simp only [execInstr, Option.some.injEq] at hx
    subst hx
    obtain ⟨hr, h2, h4⟩ := inv_brk s h
    exact ⟨hr, fun hne => absurd rfl hne, fun _ => ⟨h2, h4⟩⟩
  case compare r m =>
    simp only [execInstr, Option.some.injEq] at hx
    subst hx
    obtain ⟨hr, hb⟩ := inv_compare r m s h
    exact ⟨hr, fun _ => hb, nofun⟩
  case adc m =>
    simp only [execInstr] at hx
    obtain ⟨hr, hb⟩ := inv_adc m s s' hx h
    exact ⟨hr, fun _ => hb, nofun⟩
  case sbc m =>
    simp only [execInstr] at hx
    obtain ⟨hr, hb⟩ := inv_sbc m s s' hx h
    exact ⟨hr, fun _ => hb, nofun⟩
  case jmpAbs =>
    simp only [execInstr, Option.some.injEq] at hx
    subst hx
    obtain ⟨hr, hb⟩ := inv_jmp_absolute s h
    exact ⟨hr, fun _ => hb, nofun⟩
  case jmpInd =>
    simp only [execInstr, Option.some.injEq] at hx
    subst hx
    obtain ⟨hr, hb⟩ := inv_jmp_indirect s h
    exact ⟨hr, fun _ => hb, nofun⟩
  case jsr =>
    simp only [execInstr, Option.some.injEq] at hx
    subst hx
    obtain ⟨hr, hb⟩ := inv_jsr s h
    exact ⟨hr, fun _ => hb, nofun⟩
  case nop =>
    simp only [execInstr, Option.some.injEq] at hx
    subst hx
    obtain ⟨hr, hb⟩ := inv_nop s h
    exact ⟨hr, fun _ => hb, nofun⟩
  case rts =>
    simp only [execInstr, Option.some.injEq] at hx
    subst hx
    obtain ⟨hr, hb⟩ := inv_rts s h
    exact ⟨hr, fun _ => hb, nofun⟩
  case clc =>
    simp only [execInstr, Option.some.injEq] at hx
    subst hx
    obtain ⟨hr, hb⟩ := inv_clc s h
    exact ⟨hr, fun _ => hb, nofun⟩
  case sec =>
    simp only [execInstr, Option.some.injEq] at hx
    subst hx
    obtain ⟨hr, hb⟩ := inv_sec s h
    exact ⟨hr, fun _ => hb, nofun⟩
  case cli =>
    simp only [execInstr, Option.some.injEq] at hx
    subst hx
    obtain ⟨hr, hb⟩ := inv_cli s h
    exact ⟨hr, fun _ => hb, nofun⟩
  case sei =>
    simp only [execInstr, Option.some.injEq] at hx
    subst hx
    obtain ⟨hr, hb⟩ := inv_sei s h
    exact ⟨hr, fun _ => hb, nofun⟩
  case cld =>
    simp only [execInstr, Option.some.injEq] at hx
    subst hx
    obtain ⟨hr, hb⟩ := inv_cld s h
    exact ⟨hr, fun _ => hb, nofun⟩
  case sed =>
    simp only [execInstr, Option.some.injEq] at hx
    subst hx
    obtain ⟨hr, hb⟩ := inv_sed s h
    exact ⟨hr, fun _ => hb, nofun⟩
  case clv =>
    simp only [execInstr, Option.some.injEq] at hx
    subst hx
    obtain ⟨hr, hb⟩ := inv_clv s h
    exact ⟨hr, fun _ => hb, nofun⟩
  case tax =>
    simp only [execInstr, Option.some.injEq] at hx
    subst hx
    obtain ⟨hr, hb⟩ := inv_tax s h
    exact ⟨hr, fun _ => hb, nofun⟩
  case tay =>
    simp only [execInstr, Option.some.injEq] at hx
    subst hx
    obtain ⟨hr, hb⟩ := inv_tay s h
    exact ⟨hr, fun _ => hb, nofun⟩
  case tsx =>
    simp only [execInstr, Option.some.injEq] at hx
    subst hx
    obtain ⟨hr, hb⟩ := inv_tsx s h
    exact ⟨hr, fun _ => hb, nofun⟩
  case txa =>
    simp only [execInstr, Option.some.injEq] at hx
    subst hx
    obtain ⟨hr, hb⟩ := inv_txa s h
    exact ⟨hr, fun _ => hb, nofun⟩
  case txs =>
    simp only [execInstr, Option.some.injEq] at hx
    subst hx
    obtain ⟨hr, hb⟩ := inv_txs s h
    exact ⟨hr, fun _ => hb, nofun⟩
  case tya =>
    simp only [execInstr, Option.some.injEq] at hx
    subst hx
    obtain ⟨hr, hb⟩ := inv_tya s h
    exact ⟨hr, fun _ => hb, nofun⟩
  case pha =>
    simp only [execInstr, Option.some.injEq] at hx
    subst hx
    obtain ⟨hr, hb⟩ := inv_pha s h
    exact ⟨hr, fun _ => hb, nofun⟩
  case php =>
    simp only [execInstr, Option.some.injEq] at hx
    subst hx
    obtain ⟨hr, hb⟩ := inv_php s h
    exact ⟨hr, fun _ => hb, nofun⟩
  case pla =>
    simp only [execInstr, Option.some.injEq] at hx
    subst hx
    obtain ⟨hr, hb⟩ := inv_pla s h
    exact ⟨hr, fun _ => hb, nofun⟩
  case plp =>
    simp only [execInstr, Option.some.injEq] at hx
    subst hx
    obtain ⟨hr, hb⟩ := inv_plp s h
    exact ⟨hr, fun _ => hb, nofun⟩
  case dex =>
    simp only [execInstr, Option.some.injEq] at hx
    subst hx
    obtain ⟨hr, hb⟩ := inv_dex s h
    exact ⟨hr, fun _ => hb, nofun⟩
  case dey =>
    simp only [execInstr, Option.some.injEq] at hx
    subst hx
    obtain ⟨hr, hb⟩ := inv_dey s h
    exact ⟨hr, fun _ => hb, nofun⟩
  case inx =>
    simp only [execInstr, Option.some.injEq] at hx
    subst hx
    obtain ⟨hr, hb⟩ := inv_inx s h
    exact ⟨hr, fun _ => hb, nofun⟩
  case iny =>
    simp only [execInstr, Option.some.injEq] at hx
    subst hx
    obtain ⟨hr, hb⟩ := inv_iny s h
    exact ⟨hr, fun _ => hb, nofun⟩
  case lda m =>
    simp only [execInstr, Option.some.injEq] at hx
    subst hx
    obtain ⟨hr, hb⟩ := inv_lda m s h
    exact ⟨hr, fun _ => hb, nofun⟩
  case ldx m =>
    simp only [execInstr, Option.some.injEq] at hx
    subst hx
    obtain ⟨hr, hb⟩ := inv_ldx m s h
    exact ⟨hr, fun _ => hb, nofun⟩
  case ldy m =>
    simp only [execInstr, Option.some.injEq] at hx
    subst hx
    obtain ⟨hr, hb⟩ := inv_ldy m s h
    exact ⟨hr, fun _ => hb, nofun⟩
  case sta m =>
    simp only [execInstr, Option.some.injEq] at hx
    subst hx
    obtain ⟨hr, hb⟩ := inv_sta m s h
    exact ⟨hr, fun _ => hb, nofun⟩
  case stx m =>
    simp only [execInstr, Option.some.injEq] at hx
    subst hx
    obtain ⟨hr, hb⟩ := inv_stx m s h
    exact ⟨hr, fun _ => hb, nofun⟩
  case sty m =>
    simp only [execInstr, Option.some.injEq] at hx
    subst hx
    obtain ⟨hr, hb⟩ := inv_sty m s h
    exact ⟨hr, fun _ => hb, nofun⟩
  case dec m =>
    simp only [execInstr, Option.some.injEq] at hx
    subst hx
    obtain ⟨hr, hb⟩ := inv_dec m s h
    exact ⟨hr, fun _ => hb, nofun⟩
  case inc m =>
    simp only [execInstr, Option.some.injEq] at hx
    subst hx
    obtain ⟨hr, hb⟩ := inv_inc m s h
    exact ⟨hr, fun _ => hb, nofun⟩
  case asl m =>
    simp only [execInstr, Option.some.injEq] at hx
    subst hx
    obtain ⟨hr, hb⟩ := inv_asl m s h
    exact ⟨hr, fun _ => hb, nofun⟩
  case lsr m =>
    simp only [execInstr, Option.some.injEq] at hx
    subst hx
    obtain ⟨hr, hb⟩ := inv_lsr m s h
    exact ⟨hr, fun _ => hb, nofun⟩
  case rol m =>
    simp only [execInstr, Option.some.injEq] at hx
    subst hx
    obtain ⟨hr, hb⟩ := inv_rol m s h
    exact ⟨hr, fun _ => hb, nofun⟩
  case ror m =>
    simp only [execInstr, Option.some.injEq] at hx
    subst hx
    obtain ⟨hr, hb⟩ := inv_ror m s h
    exact ⟨hr, fun _ => hb, nofun⟩
  case and_op m =>
    simp only [execInstr, Option.some.injEq] at hx
    subst hx
    obtain ⟨hr, hb⟩ := inv_and_op m s h
    exact ⟨hr, fun _ => hb, nofun⟩
  case eor m =>
    simp only [execInstr, Option.some.injEq] at hx
    subst hx
    obtain ⟨hr, hb⟩ := inv_eor m s h
    exact ⟨hr, fun _ => hb, nofun⟩
  case ora m =>
    simp only [execInstr, Option.some.injEq] at hx
    subst hx
    obtain ⟨hr, hb⟩ := inv_ora m s h
    exact ⟨hr, fun _ => hb, nofun⟩
  case bit m =>
    simp only [execInstr, Option.some.injEq] at hx
    subst hx
    obtain ⟨hr, hb⟩ := inv_bit m s h
    exact ⟨hr, fun _ => hb, nofun⟩

theorem step_inv (s s' : CPU) (r : StepResult) (hstep : step s = some (s', r))
    (h : Inv s) :
    Inv s' ∧ (r = .brk ↔ decode (readMem s.mem s.pc) = .brk) := by
  obtain ⟨⟨ha, hxx, hy, hsp⟩, hB⟩ := h
  simp only [step] at hstep
  rcases hx : execInstr (decode (readMem s.mem s.pc)) { s with pc := s.pc + 1 } with _ | s2
  · rw [hx] at hstep
    exact Option.noConfusion hstep
  · rw [hx] at hstep
    simp only [Option.map, Option.some.injEq] at hstep
    have hinv2 := execInstr_inv _ _ _ hx ⟨⟨ha, hxx, hy, hsp⟩, hB⟩
    by_cases hbrk : decode (readMem s.mem s.pc) = .brk
    · obtain ⟨h2, h4⟩ := hinv2.2.2 hbrk
      rw [if_pos ⟨h2, h4⟩] at hstep
      obtain ⟨he, hr⟩ := Prod.mk.inj hstep
      subst he
      subst hr
      refine ⟨⟨⟨hinv2.1.1, hinv2.1.2.1, hinv2.1.2.2.1, hinv2.1.2.2.2⟩, ?_⟩, ?_⟩
      · rw [getBit_clearBit]
        simp
      · simp [hbrk]
    · have hB2 := hinv2.2.1 hbrk
      rw [if_neg (by intro hc; rw [hc.2] at hB2; exact absurd hB2 (by omega))] at hstep
      obtain ⟨he, hr⟩ := Prod.mk.inj hstep
      subst he
      subst hr
      refine ⟨⟨hinv2.1, hB2⟩, ?_⟩
      simp [hbrk]

theorem inv_new (m : Mem) : Inv (CPU.new m) := by
  refine ⟨⟨?_, ?_, ?_, ?_⟩, ?_⟩ <;> simp only [CPU.new] <;> decide

theorem reach_inv {s : CPU} (h : Reach s) : Inv s := by
  induction h with
  | start m => exact inv_new m
  | doStep _ hstep ih => exact (step_inv _ _ _ hstep ih).1
  | doIrq _ ih => exact inv_irq _ ih
  | doNmi _ ih => exact inv_nmi _ ih
  | hook m _ ih => exact ⟨⟨ih.1.1, ih.1.2.1, ih.1.2.2.1, ih.1.2.2.2⟩, ih.2⟩

/-- C10: on every reachable CPU state the live B bit (status bit 4) is 0 —
after construction, after every completed step, and after every irq or nmi
call — and a step reports the BRK result exactly when the dispatched handler
was the brk handler (opcode 0x00 or an unregistered opcode). -/
theorem b_flag_clear_at_step_boundaries (s : CPU) (h : Reach s) :
    getBit s.status 4 = 0 ∧
    getBit (irq s).status 4 = 0 ∧
    getBit (nmi s).status 4 = 0 ∧
    ∀ s' r, step s = some (s', r) →
      getBit s'.status 4 = 0 ∧ (r = .brk ↔ decode (readMem s.mem s.pc) = .brk) := by
  have hi := reach_inv h
  refine ⟨hi.2, (inv_irq s hi).2, (inv_nmi s hi).2, ?_⟩
  intro s' r hstep
  obtain ⟨hinv, hiff⟩ := step_inv s s' r hstep hi
  exact ⟨hinv.2, hiff⟩

/-- Witness for C10 at a concrete reachable state: a freshly constructed CPU
over all-zero memory. -/
theorem b_flag_clear_at_step_boundaries_witness :
    getBit (CPU.new c10mem).status 4 = 0 ∧
    getBit (irq (CPU.new c10mem)).status 4 = 0 ∧
    getBit (nmi (CPU.new c10mem)).status 4 = 0 ∧
    ∀ s' r, step (CPU.new c10mem) = some (s', r) →
      getBit s'.status 4 = 0 ∧
      (r = .brk ↔ decode (readMem (CPU.new c10mem).mem (CPU.new c10mem).pc) = .brk) :=
  b_flag_clear_at_step_boundaries (CPU.new c10mem) (Reach.start c10mem)

end Emu6502
